import Mathlib

/-!
Shallow embedding of the core of `consrv` (an SSH-to-serial console bridge)
for verification of its natural-language specification.

The embedding translates, from the Go sources:
  * `mux.go` — the single-producer multi-subscriber byte fan-out (`mux`,
    `mux.doRead`, `mux.Attach`, `muxReader.Read`, the reader loop of `newMux`
    and `mux.Close`);
  * `cmd/consrv` `identities` — `newIdentities` and `identities.authenticate`;
  * `cmd/consrv` `device.go` — `serialDevice.Read`/`Write` instrumentation and
    the serial-number enumeration loop (`fs.enumerate` per-candidate loop);
  * `cmd/consrv` `config.go` — `parseConfig`;
  * `ssh.go` — `sshServer.handle` (session-visible effects) and `logf`.

External collaborators (TOML decoding, `ssh.ParseAuthorizedKey`,
`net.ResolveTCPAddr`, `gossh.FingerprintSHA256`, the filesystem, the serial
driver) are taken as function parameters, mirroring how the code consumes
them through interfaces.
-/

/-! ## Basic types -/

/-- A byte of the serial stream. -/
abbrev Byte := Nat

/-- Model of Go `error` values returned by `io.Reader.Read`: `io.EOF`,
`io.ErrClosedPipe`, and any other distinct error (tagged by a code). -/
inductive GErr where
  | eof
  | closedPipe
  | other (code : Nat)
deriving DecidableEq, Repr

/-- Model of Go `copy(dst, src)` for byte slices: copies
`min (len dst) (len src)` bytes of `src` into the front of `dst` and
returns the updated destination contents. -/
def goCopy (dst src : List Byte) : List Byte :=
  src.take dst.length ++ dst.drop src.length

/-- The number of bytes Go `copy(dst, src)` reports as copied. -/
def goCopyCount (dst src : List Byte) : Nat :=
  min dst.length src.length

/-! ## Mux data model (`mux.go`)

A `read` event pairs the freshly copied payload with the upstream error,
exactly as the Go struct `read { b []byte; err error }`. -/

/-- A read event dispatched by the mux to a client (Go struct `read`). -/
structure ReadEvent where
  b : List Byte
  err : Option GErr
deriving DecidableEq, Repr

/-- A client attached to the mux (Go struct `client`), extended with the
observable history of its delivery channel: `cancelled` models
`ctx.Err() != nil`, `removed` models deletion from `m.clients` (with its
channel closed), and `delivered` records every event sent on `readC`. -/
structure MuxClient where
  id : Nat
  cancelled : Bool
  removed : Bool
  delivered : List ReadEvent
deriving DecidableEq, Repr

/-- The mux state: the auto-increment id counter `m.id` and the client
table `m.clients` (the Go map is modelled as a list ordered by attach
time; ids are unique by construction). -/
structure MuxState where
  nextId : Nat
  clients : List MuxClient
deriving DecidableEq, Repr

/-- The state of a freshly constructed mux (`newMux` before any reads). -/
def mux.new : MuxState := ⟨0, []⟩

/-- One client's treatment inside `mux.doRead`: a removed client is gone; a
client whose context is cancelled is removed (its channel closed); an
attached live client receives the event on its channel. -/
def dispatchClient (ev : ReadEvent) (c : MuxClient) : MuxClient :=
  if c.removed then c
  else if c.cancelled then { c with removed := true }
  else { c with delivered := c.delivered ++ [ev] }

/-- Go `mux.doRead(b, n, err)`: copy the first `n` bytes of the scratch
buffer into a fresh payload and dispatch the event to every client. -/
def mux.doRead (s : MuxState) (b : List Byte) (n : Nat) (err : Option GErr) : MuxState :=
  { s with clients := s.clients.map (dispatchClient ⟨b.take n, err⟩) }

/-- Go `mux.Attach(ctx)`: register a new client under the next id and
return its id (the `muxReader` handle is modelled by `muxReader.Read`). -/
def mux.Attach (s : MuxState) : MuxState × Nat :=
  ({ nextId := s.nextId + 1,
     clients := s.clients ++ [⟨s.nextId, false, false, []⟩] }, s.nextId)

/-- Cancellation of one client's context (performed outside the mux; the
mux observes it lazily at the next dispatch). -/
def mux.cancel (s : MuxState) (cid : Nat) : MuxState :=
  { s with clients := s.clients.map (fun c => if c.id = cid then { c with cancelled := true } else c) }

/-- An interleaving step acting on a mux: a subscriber attaches, a
subscriber's context is cancelled, or the reader loop dispatches the
result of one upstream read via `doRead`. -/
inductive MuxStep where
  | attach
  | cancel (cid : Nat)
  | doRead (b : List Byte) (n : Nat) (err : Option GErr)
deriving DecidableEq, Repr

/-- Apply one step to the mux state. -/
def muxStepFn (s : MuxState) : MuxStep → MuxState
  | .attach => (mux.Attach s).1
  | .cancel cid => mux.cancel s cid
  | .doRead b n err => mux.doRead s b n err

/-- Run a trace of steps from a given state. -/
def runMux (s : MuxState) (t : List MuxStep) : MuxState :=
  t.foldl muxStepFn s

/-- Find the client with a given id in a client list. -/
def findClientL : List MuxClient → Nat → Option MuxClient
  | [], _ => none
  | c :: rest, cid => if c.id = cid then some c else findClientL rest cid

/-- Find the client with a given id (Go `m.clients[id]`). -/
def findClient (s : MuxState) (cid : Nat) : Option MuxClient :=
  findClientL s.clients cid

/-- The events a subscriber with id `cid` must receive from the steps
following its attach: each dispatched read contributes its payload in
trace order, until (and excluding) any dispatch after `cid`'s context is
cancelled. -/
def deliveredSpec (cid : Nat) : List MuxStep → List ReadEvent
  | [] => []
  | .attach :: t => deliveredSpec cid t
  | .cancel c :: t => if c = cid then [] else deliveredSpec cid t
  | .doRead b n err :: t => ⟨b.take n, err⟩ :: deliveredSpec cid t

/-- Number of attach steps in a trace. -/
def numAttaches : List MuxStep → Nat
  | [] => 0
  | .attach :: t => numAttaches t + 1
  | _ :: t => numAttaches t

/-! ## muxReader (`muxReader.Read`) -/

/-- Which branch of the `select` in `muxReader.Read` fires: the reader's
context is done, or a read event arrives on the channel. -/
inductive ReaderCase where
  | ctxDone
  | event (r : ReadEvent)

/-- Go `muxReader.Read(b)`: on a cancelled context return `(0, io.EOF)`
without touching the buffer; on a read event copy the payload into the
buffer with `copy` and return the count and the event's error. The result
is (updated buffer contents, bytes copied, returned error). -/
def muxReader.Read (buf : List Byte) : ReaderCase → List Byte × Nat × Option GErr
  | .ctxDone => (buf, 0, some .eof)
  | .event r => (goCopy buf r.b, goCopyCount buf r.b, r.err)

/-! ## Reader loop and Close (`newMux`, `mux.Close`)

The goroutine started by `newMux` repeatedly reads upstream and feeds
`doRead`. We model the sequence of upstream read results as a script; the
loop consumes it until a terminating condition. The second component of
the outcome is `none` while the loop is still running (script exhausted),
and `some r` when the loop returned, where `r` is the goroutine's return
value (`none` for a clean `return nil`). `mux.Close` returns that value. -/

/-- The result of one upstream `r.Read(b)` call: the scratch buffer
contents, the byte count, and the error. -/
structure UpstreamRead where
  b : List Byte
  n : Nat
  err : Option GErr
deriving DecidableEq, Repr

/-- The reader loop of `newMux`: on `io.EOF` or `io.ErrClosedPipe` return
`nil` without dispatching; otherwise dispatch via `doRead`, then return
the error if it was non-nil. -/
def muxLoop (s : MuxState) : List UpstreamRead → MuxState × Option (Option GErr)
  | [] => (s, none)
  | r :: rs =>
    if r.err = some .eof ∨ r.err = some .closedPipe then
      (s, some none)
    else
      match r.err with
      | some e => (mux.doRead s r.b r.n (some e), some (some e))
      | none => muxLoop (mux.doRead s r.b r.n none) rs

/-- Go `mux.Close()` waits for the reader loop and returns its error. -/
def mux.Close (s : MuxState) (script : List UpstreamRead) : Option (Option GErr) :=
  (muxLoop s script).2

/-- Dispatch a list of upstream reads unconditionally (used to describe
the state the loop has built before reaching its terminal read). -/
def dispatchAll (s : MuxState) (rs : List UpstreamRead) : MuxState :=
  rs.foldl (fun st r => mux.doRead st r.b r.n r.err) s

/-! ## Device instrumentation (`cmd/consrv` `serialDevice`) -/

/-- Byte counters of `metricslite`, modelled as a label-indexed table of
totals. -/
abbrev Counters := List (String × Nat)

/-- Look up an association list by key. -/
def lookupA {β : Type} (l : List (String × β)) (k : String) : Option β :=
  match l with
  | [] => none
  | p :: rest => if p.1 = k then some p.2 else lookupA rest k

/-- Insert or overwrite a key in an association list. -/
def upsertA {β : Type} (l : List (String × β)) (k : String) (v : β) : List (String × β) :=
  match l with
  | [] => [(k, v)]
  | p :: rest => if p.1 = k then (k, v) :: rest else p :: upsertA rest k v

/-- Add `v` to the counter labelled `label` (a `metricslite.Counter`
invocation `c(float64(v), label)`). -/
def counterAdd (cs : Counters) (v : Nat) (label : String) : Counters :=
  upsertA cs label ((lookupA cs label).getD 0 + v)

/-- A `serialDevice` (current `cmd/consrv` version): friendly name, raw
device path, serial and baud; the `rwc` handle and the two counters are
supplied per-operation. -/
structure serialDevice where
  name : String
  device : String
  serial : String
  baud : Nat
deriving DecidableEq, Repr

/-- Go `serialDevice.Read`: forward the underlying read result `(n, err)`
and increment the reads counter by `n`, keyed by the friendly name
(`d.reads(float64(n), d.name)`). -/
def serialDevice.Read (d : serialDevice) (reads : Counters) (res : Nat × Option GErr) :
    (Nat × Option GErr) × Counters :=
  (res, counterAdd reads res.1 d.name)

/-- Go `serialDevice.Write`: forward the underlying write result `(n, err)`
and increment the writes counter by `n`, keyed by the friendly name
(`d.writes(float64(n), d.name)`). -/
def serialDevice.Write (d : serialDevice) (writes : Counters) (res : Nat × Option GErr) :
    (Nat × Option GErr) × Counters :=
  (res, counterAdd writes res.1 d.name)

/-! ## Identity store (`cmd/consrv` `identities`) -/

/-- An opaque public key blob; `gossh.FingerprintSHA256` is modelled as a
function parameter `fp` applied to it. -/
abbrev PubKey := String

/-- A processed identity configuration (`identity` in `config.go`). -/
structure identity where
  Name : String
  PublicKey : PubKey
deriving DecidableEq, Repr

/-- A raw device configuration (`rawDevice` in `config.go`). -/
structure rawDevice where
  Name : String
  Device : String
  Serial : String
  Baud : Nat
  Identities : List String
deriving DecidableEq, Repr

/-- SSH server section of the configuration. -/
structure server where
  Address : String
deriving DecidableEq, Repr

/-- Debug section of the configuration. -/
structure debug where
  Address : String
  Prometheus : Bool
  PProf : Bool
deriving DecidableEq, Repr

/-- The processed consrv configuration (`config` in `config.go`). -/
structure config where
  Server : server
  Devices : List rawDevice
  Identities : List identity
  Debug : debug
deriving DecidableEq, Repr

/-- The identity store (`identities` in the Go source): per-device
allow-sets, the global allow-set, and the fingerprint-to-name index.
Go's maps and sets are modelled as association lists / lists with the
same lookup and membership semantics. -/
structure identities where
  perDevice : List (String × List String)
  global : List String
  toName : List (String × String)
deriving DecidableEq, Repr

/-- Go `set.add`: insert a fingerprint into a set. -/
def setAdd (s : List String) (f : String) : List String :=
  if s.contains f then s else s ++ [f]

/-- First loop of `newIdentities`: process one configured identity, adding
its fingerprint to `known`, the global allow-set, and the reverse name
index. -/
def addIdentity (fp : PubKey → String) (st : List (String × String) × identities)
    (id : identity) : List (String × String) × identities :=
  let f := fp id.PublicKey
  (upsertA st.1 id.Name f,
   { st.2 with
      global := setAdd st.2.global f
      toName := upsertA st.2.toName f id.Name })

/-- Inner loop of the second phase of `newIdentities`: add each listed
identity's fingerprint to the device's allow-set; an identity name absent
from `known` is the Go `panic`, modelled as `none`. -/
def addDeviceIdentity (known : List (String × String)) (dname : String)
    (ids : identities) (idname : String) : Option identities :=
  match lookupA known idname with
  | none => none
  | some f =>
    some { ids with
      perDevice := upsertA ids.perDevice dname (setAdd ((lookupA ids.perDevice dname).getD []) f) }

/-- Second loop of `newIdentities`: a device with no identity list is
skipped (global fall-back); otherwise its allow-set is created and
populated. -/
def addDeviceIds (known : List (String × String)) (ids : identities)
    (d : rawDevice) : Option identities :=
  if d.Identities.isEmpty then some ids
  else
    let ids :=
      if (lookupA ids.perDevice d.Name).isNone then
        { ids with perDevice := upsertA ids.perDevice d.Name [] }
      else ids
    d.Identities.foldlM (addDeviceIdentity known d.Name) ids

/-- Go `newIdentities(cfg, ll)`: build the identity store from the
configuration (a `nil` configuration yields the empty store). The Go
`panic` on a device referencing an unknown identity is modelled as
`none`. -/
def newIdentities (fp : PubKey → String) : Option config → Option identities
  | none => some ⟨[], [], []⟩
  | some cfg =>
    let st := cfg.Identities.foldl (addIdentity fp) ([], ⟨[], [], []⟩)
    cfg.Devices.foldlM (addDeviceIds st.1) st.2

/-- Go `identities.authenticate(user, key)`: compute the key's
fingerprint; require membership in the user's per-device allow-set when
one exists, in the global allow-set otherwise; on success also return the
friendly name from the reverse index (Go map zero value `""` when
absent). -/
def identities.authenticate (fp : PubKey → String) (ids : identities)
    (user : String) (key : PubKey) : String × Bool :=
  let f := fp key
  match lookupA ids.perDevice user with
  | some pd =>
    if pd.contains f then ((lookupA ids.toName f).getD "", true) else ("", false)
  | none =>
    if ids.global.contains f then ((lookupA ids.toName f).getD "", true) else ("", false)

/-! ## Configuration parsing (`cmd/consrv` `parseConfig`) -/

/-- The raw identity configuration (`rawIdentity`). -/
structure rawIdentity where
  Name : String
  PublicKey : String
deriving DecidableEq, Repr

/-- The raw top-level configuration file representation (`file`). -/
structure file where
  Server : server
  Devices : List rawDevice
  Identities : List rawIdentity
  Debug : debug
deriving DecidableEq, Repr

/-- Outcome of the external TOML decoder: a decode error, or a decoded
`file` together with the list of unrecognized (undecoded) keys. -/
inductive DecodeResult where
  | err
  | ok (f : file) (undecoded : List String)
deriving DecidableEq, Repr

/-- The default SSH server address (`defaultSSH`). -/
def defaultSSH : String := ":2222"

/-- Identity loop of `parseConfig`: reject an identity without a name or
with an unparseable public key; otherwise record its name in `validIDs`
and its processed form. `parseKey` models `ssh.ParseAuthorizedKey`. -/
def processIdentity (parseKey : String → Option PubKey)
    (acc : List String × List identity) (id : rawIdentity) :
    Option (List String × List identity) :=
  if id.Name = "" then none
  else
    match parseKey id.PublicKey with
    | none => none
    | some key => some (acc.1 ++ [id.Name], acc.2 ++ [⟨id.Name, key⟩])

/-- Device loop of `parseConfig`: reject a device without a name, without
a nonzero baud rate, without either a device path or a serial, or
referencing an identity name not in `validIDs`. -/
def checkDevice (validIDs : List String) (d : rawDevice) : Bool :=
  if d.Name = "" then false
  else if d.Baud = 0 then false
  else if d.Device = "" && d.Serial = "" then false
  else d.Identities.all (fun id => validIDs.contains id)

/-- Go `parseConfig(r)`: decode the TOML (modelled by `DecodeResult`),
reject unrecognized keys, empty device or identity lists, a bad server
address (defaulting an absent one to `defaultSSH`), bad identities, bad
devices, and a bad debug address; on success return the processed
configuration. `resolveTCP` models `net.ResolveTCPAddr` succeeding. -/
def parseConfig (parseKey : String → Option PubKey) (resolveTCP : String → Bool) :
    DecodeResult → Option config
  | .err => none
  | .ok f undecoded =>
    if ¬undecoded.isEmpty then none
    else if f.Devices.isEmpty then none
    else if f.Identities.isEmpty then none
    else
      match
        (if f.Server.Address ≠ "" then
          if resolveTCP f.Server.Address then some f.Server.Address else none
        else some defaultSSH) with
      | none => none
      | some addr =>
        match f.Identities.foldlM (processIdentity parseKey) ([], []) with
        | none => none
        | some acc =>
          if ¬(f.Devices.all (checkDevice acc.1)) then none
          else if f.Debug.Address ≠ "" && ¬resolveTCP f.Debug.Address then none
          else some ⟨⟨addr⟩, f.Devices, acc.2, f.Debug⟩

/-! ## Filesystem device resolution (`fs`) -/

/-- Errors surfaced by the modelled filesystem: `os.ErrNotExist` or any
other error (tagged by a code). -/
inductive FsErr where
  | notExist
  | other (code : Nat)
deriving DecidableEq, Repr

/-- The `fs` collaborator: `glob` and `readFile`, as total functions into
`Except` (the serial-port opener is not needed by the claims). -/
structure FsOps where
  glob : String → Except FsErr (List String)
  readFile : String → Except FsErr String
deriving Inhabited

/-- Go `strings.TrimSpace`: drop leading and trailing whitespace. -/
def goTrim (s : String) : String :=
  String.mk (((s.data.dropWhile Char.isWhitespace).reverse.dropWhile Char.isWhitespace).reverse)

/-- Go `filepath.Base` for the paths produced by the device globs: the
suffix after the final `/`. -/
def baseName (p : String) : String :=
  String.mk (p.data.foldl (fun acc c => if c = '/' then [] else acc ++ [c]) [])

/-- The sysfs serial-attribute path for a `/dev/ttyUSB*` candidate. -/
def usbSerialPath (m : String) : String :=
  "/sys/class/tty/" ++ baseName m ++ "/device/../../serial"

/-- The sysfs serial-attribute path for a `/dev/ttyACM*` candidate. -/
def acmSerialPath (m : String) : String :=
  "/sys/class/tty/" ++ baseName m ++ "/device/../serial"

/-- The per-candidate loop shared by `fs.findttyUSBSerial` (`device.go`)
and `fs.enumerate` (`cmd/consrv`): read each candidate's sysfs serial
attribute at `pathOf m`; a missing file (`os.IsNotExist`) skips the
candidate, any other error aborts; otherwise the candidate is recorded
with its whitespace-trimmed serial. -/
def enumCandidates (fso : FsOps) (pathOf : String → String) :
    List String → Except FsErr (List (String × String))
  | [] => .ok []
  | m :: rest =>
    match fso.readFile (pathOf m) with
    | .error .notExist => enumCandidates fso pathOf rest
    | .error e => .error e
    | .ok b =>
      match enumCandidates fso pathOf rest with
      | .error e => .error e
      | .ok eds => .ok ((m, goTrim b) :: eds)

/-- Go `fs.enumerate` as in the repository sources (`cmd/consrv`,
part_011): glob `/dev/ttyUSB*` and read each candidate's serial
attribute. -/
def fs.enumerate (fso : FsOps) : Except FsErr (List (String × String)) :=
  match fso.glob "/dev/ttyUSB*" with
  | .error e => .error e
  | .ok ms => enumCandidates fso usbSerialPath ms

/-- Modelled from the spec: the current `cmd/consrv/device.go`
`fs.enumerate` with `/dev/ttyACM*` support is absent from the sources
(only its test `Test_fs_openSerial` and the CHANGELOG entry reference
it). Per the spec, enumeration uses both globs `/dev/ttyUSB*` and
`/dev/ttyACM*`, reading `/sys/class/tty/<name>/device/../../serial` for
USB-serial candidates and `/sys/class/tty/<name>/device/../serial` for
ACM candidates, trimming whitespace from each attribute. -/
def enumerateSpec (fso : FsOps) : Except FsErr (List (String × String)) :=
  match fso.glob "/dev/ttyUSB*" with
  | .error e => .error e
  | .ok usb =>
    match fso.glob "/dev/ttyACM*" with
    | .error e => .error e
    | .ok acm =>
      match enumCandidates fso usbSerialPath usb with
      | .error e => .error e
      | .ok e1 =>
        match enumCandidates fso acmSerialPath acm with
        | .error e => .error e
        | .ok e2 => .ok (e1 ++ e2)

/-- The serial-number-to-path cache built by `fs.init` from the
enumerated devices (`fs.serialToDevice[serial] = m`, in order, later
entries overwriting earlier ones as in a Go map). -/
def serialToDevice (pairs : List (String × String)) : List (String × String) :=
  pairs.foldl (fun m p => upsertA m p.2 p.1) []

/-- Modelled from the spec: the serial-number lookup performed by the
current `cmd/consrv/device.go` `fs.openSerial` when a device entry
specifies a serial number — enumerate (as `enumerateSpec`), cache the
serial-to-path map, and resolve the configured serial through it,
failing with `os.ErrNotExist` when no candidate matches. -/
def resolveSerial (fso : FsOps) (ser : String) : Except FsErr String :=
  match enumerateSpec fso with
  | .error e => .error e
  | .ok pairs =>
    match lookupA (serialToDevice pairs) ser with
    | some dev => .ok dev
    | none => .error .notExist

/-! ## SSH session handler (`sshServer.handle`, `logf`) -/

/-- A lower-case hexadecimal digit, as used by Go `strconv` quoting. -/
def hexDigit (n : Nat) : Char :=
  if n < 10 then Char.ofNat (48 + n) else Char.ofNat (87 + n)

/-- The big-endian `k`-digit lower-case hexadecimal rendering of `n`,
as Go `strconv` emits after `\x`, `\u`, and `\U`. -/
def hexDigits (n k : Nat) : List Char :=
  (List.range k).map (fun i => hexDigit (n / 16 ^ (k - 1 - i) % 16))

/-- Go `%q` escaping of one character, following `strconv.Quote`'s
`appendEscapedRune` with quote `"`: the quote and the backslash are
backslash-escaped; a printable rune passes through verbatim; the named
control escapes follow; other runes below `0x20` and `0x7F` become
`\xNN`; remaining (non-printable) runes become `\uNNNN`, or
`\UNNNNNNNN` from `0x10000` up. `unicode.IsPrint` is an external
library collaborator and is taken as the function parameter `isPrint`
(Lean `Char` is a valid scalar value, so Go's invalid-rune fallback
cannot arise). -/
def goQuoteChar (isPrint : Char → Bool) (c : Char) : List Char :=
  if c = '"' then ['\\', '"']
  else if c = '\\' then ['\\', '\\']
  else if isPrint c then [c]
  else if c = '\x07' then ['\\', 'a']
  else if c = '\x08' then ['\\', 'b']
  else if c = '\x0C' then ['\\', 'f']
  else if c = '\n' then ['\\', 'n']
  else if c = '\r' then ['\\', 'r']
  else if c = '\t' then ['\\', 't']
  else if c = '\x0B' then ['\\', 'v']
  else if c.toNat < 0x20 ∨ c.toNat = 0x7F then ['\\', 'x'] ++ hexDigits c.toNat 2
  else if c.toNat < 0x10000 then ['\\', 'u'] ++ hexDigits c.toNat 4
  else ['\\', 'U'] ++ hexDigits c.toNat 8

/-- Go `fmt.Sprintf("%q", s)` (`strconv.Quote`): the quoted Go string
literal for `s`, with `unicode.IsPrint` supplied as `isPrint`. -/
def goQuote (isPrint : Char → Bool) (s : String) : String :=
  "\"" ++ String.mk (s.data.map (goQuoteChar isPrint)).flatten ++ "\""

/-- Go `unicode.IsPrint` restricted to the ASCII range, where it holds
exactly for code points `0x20`–`0x7E`; used to evaluate the model on
concrete ASCII inputs (for which the two functions agree, see
`goQuote_congr`). -/
def asciiIsPrint : Char → Bool :=
  fun c => decide (0x20 ≤ c.toNat ∧ c.toNat ≤ 0x7E)

/-- The observable effects of `sshServer.handle` on a session, up to the
start of the bidirectional copy phase: bytes written to the session, the
exit status passed to `session.Exit`, the number of increments of the
unknown-session counter, and whether the handler attached to a mux. -/
structure HandleEffects where
  output : String
  exitStatus : Nat
  unknownSessions : Nat
  attached : Bool
deriving DecidableEq, Repr

/-- Go `sshServer.handle(session)`, session-visible effects: an unknown
user (no device registry entry) yields the `logf` diagnostic
`consrv> exiting, unknown connection %q\n`, one unknown-session counter
increment, and exit status 1 with no mux attach; a known user receives
the banner and the handler attaches to the device's mux (the copy phase
and final `Exit(0)` follow). `isPrint` is the `unicode.IsPrint`
collaborator consulted by the `%q` verb. -/
def sshServer.handle (isPrint : Char → Bool) (devices : List (String × String))
    (user : String) : HandleEffects :=
  match lookupA devices user with
  | none =>
    { output := "consrv> " ++ ("exiting, unknown connection " ++ goQuote isPrint user) ++ "\n"
      exitStatus := 1
      unknownSessions := 1
      attached := false }
  | some devString =>
    { output := "consrv> " ++ ("opened serial connection " ++ devString) ++ "\n"
      exitStatus := 0
      unknownSessions := 0
      attached := true }

/-! ## Helper lemmas -/

theorem lookupA_upsertA_self {β : Type} (l : List (String × β)) (k : String) (v : β) :
    lookupA (upsertA l k v) k = some v := by
  induction l with
  | nil => simp [upsertA, lookupA]
  | cons p rest ih =>
    by_cases h : p.1 = k
    · simp [upsertA, lookupA, h]
    · simp [upsertA, lookupA, h, ih]

theorem lookupA_upsertA_ne {β : Type} (l : List (String × β)) (k k' : String) (v : β)
    (h : k' ≠ k) : lookupA (upsertA l k v) k' = lookupA l k' := by
  induction l with
  | nil =>
    simp only [upsertA, lookupA]
    rw [if_neg (fun hh => h hh.symm)]
  | cons p rest ih =>
    by_cases hp : p.1 = k
    · simp only [upsertA, if_pos hp, lookupA]
      rw [if_neg (fun hh => h hh.symm), if_neg (fun hh => h (hp ▸ hh).symm)]
    · simp only [upsertA, if_neg hp, lookupA, ih]

theorem goCopy_cons (d s : Byte) (ds ss : List Byte) :
    goCopy (d :: ds) (s :: ss) = s :: goCopy ds ss := by
  simp [goCopy]

theorem goCopyCount_cons (d s : Byte) (ds ss : List Byte) :
    goCopyCount (d :: ds) (s :: ss) = goCopyCount ds ss + 1 := by
  simp [goCopyCount, Nat.succ_min_succ]

theorem goCopy_spec (dst src : List Byte) :
    (goCopy dst src).length = dst.length
    ∧ (goCopy dst src).take (goCopyCount dst src) = src.take (goCopyCount dst src)
    ∧ (goCopy dst src).drop (goCopyCount dst src) = dst.drop (goCopyCount dst src) := by
  induction dst generalizing src with
  | nil => simp [goCopy, goCopyCount]
  | cons d ds ih =>
    cases src with
    | nil => simp [goCopy, goCopyCount]
    | cons s ss =>
      obtain ⟨h1, h2, h3⟩ := ih ss
      refine ⟨?_, ?_, ?_⟩
      · simp [goCopy_cons, h1]
      · simp [goCopy_cons, goCopyCount_cons, h2]
      · simp [goCopy_cons, goCopyCount_cons, h3]

/-! ## C3: subscriber read semantics -/

/-- C3: for every subscriber read handle produced by Mux attach: if the
cancellation token has fired, read returns zero bytes with end-of-stream;
otherwise it takes the next read event, copies up to `len(buf)` bytes of
the payload into the buffer, and returns the copy count together with the
event's error, dropping any payload remainder beyond `len(buf)` (the
buffer keeps its length; bytes past the copied prefix are untouched). -/
theorem consrv_c3_muxReader_read (buf : List Byte) (r : ReadEvent) :
    muxReader.Read buf .ctxDone = (buf, 0, some GErr.eof)
    ∧ (muxReader.Read buf (.event r)).2.1 = min buf.length r.b.length
    ∧ (muxReader.Read buf (.event r)).2.2 = r.err
    ∧ (muxReader.Read buf (.event r)).1.take (min buf.length r.b.length)
        = r.b.take (min buf.length r.b.length)
    ∧ (muxReader.Read buf (.event r)).1.length = buf.length
    ∧ (muxReader.Read buf (.event r)).1.drop (min buf.length r.b.length)
        = buf.drop (min buf.length r.b.length) := by
  have h := goCopy_spec buf r.b
  exact ⟨rfl, rfl, rfl, h.2.1, h.1, h.2.2⟩

/-! ## C8: per-device byte counters -/

/-- C8: every device read increments the per-device read-byte counter by
the number of bytes the underlying read returned, and every write
increments the write-byte counter by the bytes accepted; both counters
are keyed by the device's friendly name, and any other label (in
particular the device's path, when it differs from the name) is left
unchanged. The read/write results are passed through unmodified. -/
theorem consrv_c8_counters (d : serialDevice) (reads writes : Counters)
    (rres wres : Nat × Option GErr) (l : String) (hl : l ≠ d.name) :
    (serialDevice.Read d reads rres).1 = rres
    ∧ lookupA (serialDevice.Read d reads rres).2 d.name
        = some ((lookupA reads d.name).getD 0 + rres.1)
    ∧ lookupA (serialDevice.Read d reads rres).2 l = lookupA reads l
    ∧ (serialDevice.Write d writes wres).1 = wres
    ∧ lookupA (serialDevice.Write d writes wres).2 d.name
        = some ((lookupA writes d.name).getD 0 + wres.1)
    ∧ lookupA (serialDevice.Write d writes wres).2 l = lookupA writes l := by
  refine ⟨rfl, ?_, ?_, rfl, ?_, ?_⟩
  · exact lookupA_upsertA_self _ _ _
  · exact lookupA_upsertA_ne _ _ _ _ hl
  · exact lookupA_upsertA_self _ _ _
  · exact lookupA_upsertA_ne _ _ _ _ hl

/-- C8 witness: a concrete device named `"console"` with path
`"/dev/ttyUSB0"`; a 5-byte read moves only the `"console"` counter. -/
theorem consrv_c8_witness :
    (serialDevice.Read ⟨"console", "/dev/ttyUSB0", "", 115200⟩ [("console", 2)] (5, none)).1
        = (5, none)
    ∧ lookupA (serialDevice.Read ⟨"console", "/dev/ttyUSB0", "", 115200⟩
        [("console", 2)] (5, none)).2 "console" = some 7
    ∧ lookupA (serialDevice.Read ⟨"console", "/dev/ttyUSB0", "", 115200⟩
        [("console", 2)] (5, none)).2 "/dev/ttyUSB0" = lookupA [("console", 2)] "/dev/ttyUSB0" := by
  have h := consrv_c8_counters ⟨"console", "/dev/ttyUSB0", "", 115200⟩
    [("console", 2)] [] (5, none) (0, none) "/dev/ttyUSB0" (by decide)
  exact ⟨h.1, by rw [h.2.1]; decide, h.2.2.1⟩

/-! ## C9: the nil-configuration identity store -/

/-- C9: constructing the identity store from an absent (`nil`)
configuration yields the store with empty per-device, global, and
reverse-name tables, and `authenticate` on that store rejects every
(user, key) pair. -/
theorem consrv_c9_nil_config (fp : PubKey → String) (user : String) (key : PubKey) :
    newIdentities fp none = some ⟨[], [], []⟩
    ∧ identities.authenticate fp ⟨[], [], []⟩ user key = ("", false) := by
  exact ⟨rfl, by simp [identities.authenticate, lookupA]⟩

/-! ## C5: unknown-connection sessions -/

/-- C5 counterexample: the session output is produced with Go `%q`
formatting, so a user name containing a double quote is escaped; for the
user name `a"b` the output is not the claimed plain substitution
`consrv> exiting, unknown connection "a"b"` followed by a newline.
(`a"b` is ASCII, and the quote is escaped before `unicode.IsPrint` is
ever consulted, so evaluating at `asciiIsPrint` is evaluating the
program; see `goQuote_congr`.) -/
theorem consrv_c5_counterexample :
    (sshServer.handle asciiIsPrint [] "a\"b").output
      ≠ "consrv> exiting, unknown connection \"" ++ "a\"b" ++ "\"\n" := by
  decide

/-- `goQuoteChar` consults `isPrint` only at the character itself. -/
theorem goQuoteChar_congr (p1 p2 : Char → Bool) (c : Char) (h : p1 c = p2 c) :
    goQuoteChar p1 c = goQuoteChar p2 c := by
  unfold goQuoteChar
  rw [h]

/-- `goQuote` consults `unicode.IsPrint` only at the string's own
characters: two printability functions that agree there (for example
`asciiIsPrint` and the real `unicode.IsPrint` on an ASCII string)
produce the same `%q` rendering. -/
theorem goQuote_congr (p1 p2 : Char → Bool) (s : String)
    (h : ∀ c ∈ s.data, p1 c = p2 c) : goQuote p1 s = goQuote p2 s := by
  unfold goQuote
  have hmap : s.data.map (goQuoteChar p1) = s.data.map (goQuoteChar p2) :=
    List.map_congr_left (fun c hc => goQuoteChar_congr p1 p2 c (h c hc))
  rw [hmap]

/-- A character the Go `%q` verb renders verbatim: printable (per the
`unicode.IsPrint` collaborator) and neither the double quote nor the
backslash. -/
def plainChar (isPrint : Char → Bool) (c : Char) : Prop :=
  c ≠ '"' ∧ c ≠ '\\' ∧ isPrint c = true

instance (isPrint : Char → Bool) (c : Char) : Decidable (plainChar isPrint c) := by
  unfold plainChar
  infer_instance

theorem goQuoteChars_plain (isPrint : Char → Bool) (l : List Char)
    (h : ∀ c ∈ l, plainChar isPrint c) :
    (l.map (goQuoteChar isPrint)).flatten = l := by
  induction l with
  | nil => simp
  | cons c cs ih =>
    obtain ⟨h1, h2, h3⟩ := h c (List.mem_cons_self c cs)
    have hcs : ∀ x ∈ cs, plainChar isPrint x := fun x hx => h x (List.mem_cons_of_mem c hx)
    simp only [List.map_cons, List.flatten_cons]
    rw [ih hcs]
    simp [goQuoteChar, h1, h2, h3]

theorem goQuote_plain (isPrint : Char → Bool) (user : String)
    (h : ∀ c ∈ user.data, plainChar isPrint c) :
    goQuote isPrint user = "\"" ++ user ++ "\"" := by
  unfold goQuote
  rw [goQuoteChars_plain isPrint user.data h]

/-- C5 (amended): a session whose user is not a key of the device
registry writes exactly `consrv> exiting, unknown connection Q` and a
newline, where `Q` is the Go `%q` rendering of the user name; it
increments the unknown-session counter once, exits with status 1, and
does not attach to any mux. `Q` equals `"<user>"` (plain substitution
between quotes) whenever the user name contains only characters that
`%q` renders verbatim: printable per `unicode.IsPrint` and neither `"`
nor `\`. -/
theorem consrv_c5_unknown_session (isPrint : Char → Bool)
    (devices : List (String × String)) (user : String)
    (h : lookupA devices user = none) :
    sshServer.handle isPrint devices user =
      { output := "consrv> " ++ ("exiting, unknown connection " ++ goQuote isPrint user) ++ "\n"
        exitStatus := 1
        unknownSessions := 1
        attached := false }
    ∧ ((∀ c ∈ user.data, plainChar isPrint c) → goQuote isPrint user = "\"" ++ user ++ "\"") := by
  constructor
  · simp [sshServer.handle, h]
  · exact goQuote_plain isPrint user

/-- C5 witness: the user `test` against an empty registry receives
exactly the literal diagnostic from the Go test `TestSSHUnknownDevice`
(an ASCII name, so `asciiIsPrint` agrees with `unicode.IsPrint` on all
consulted characters). -/
theorem consrv_c5_witness :
    (lookupA ([] : List (String × String)) "test" = none)
    ∧ sshServer.handle asciiIsPrint [] "test" =
      { output := "consrv> exiting, unknown connection \"test\"\n"
        exitStatus := 1
        unknownSessions := 1
        attached := false } := by
  have h := consrv_c5_unknown_session asciiIsPrint [] "test" rfl
  exact ⟨rfl, h.1.trans (by decide)⟩

/-! ## C10: enumeration error handling -/

theorem enumCandidates_skip (fso : FsOps) (pathOf : String → String)
    (pre post : List String) (m : String)
    (hm : fso.readFile (pathOf m) = .error .notExist) :
    enumCandidates fso pathOf (pre ++ m :: post) = enumCandidates fso pathOf (pre ++ post) := by
  induction pre with
  | nil => simp [enumCandidates, hm]
  | cons p rest ih =>
    have ih' : enumCandidates fso pathOf (rest.append (m :: post))
        = enumCandidates fso pathOf (rest.append post) := ih
    simp only [List.cons_append, enumCandidates]
    cases hread : fso.readFile (pathOf p) with
    | error e =>
      cases e with
      | notExist => exact ih'
      | other c => rfl
    | ok b => rw [ih']

theorem enumCandidates_abort (fso : FsOps) (pathOf : String → String)
    (pre post : List String) (m : String) (code : Nat)
    (hm : fso.readFile (pathOf m) = .error (.other code))
    (hpre : ∀ x ∈ pre, ∀ c, fso.readFile (pathOf x) ≠ .error (.other c)) :
    enumCandidates fso pathOf (pre ++ m :: post) = .error (.other code) := by
  induction pre with
  | nil => simp [enumCandidates, hm]
  | cons p rest ih =>
    have hrest : ∀ x ∈ rest, ∀ c, fso.readFile (pathOf x) ≠ .error (.other c) :=
      fun x hx => hpre x (List.mem_cons_of_mem p hx)
    have hp := hpre p (List.mem_cons_self p rest)
    simp only [List.cons_append, enumCandidates]
    cases hread : fso.readFile (pathOf p) with
    | error e =>
      cases e with
      | notExist => simpa [hread] using ih hrest
      | other c => exact absurd hread (hp c)
    | ok b => simp [hread, ih hrest]

/-- C10: during serial-number lookup (`fs.enumerate` over the candidates
produced by the `/dev/ttyUSB*` glob), a candidate whose sysfs serial
attribute file does not exist is silently skipped and enumeration
continues with the remaining candidates, whereas any other error reading
a candidate's serial attribute aborts the lookup immediately — for any
suffix of remaining candidates — and is returned to the caller. -/
theorem consrv_c10_enumerate_errors (fso : FsOps) (pre post : List String) (m : String)
    (hglob : fso.glob "/dev/ttyUSB*" = .ok (pre ++ m :: post)) :
    (fso.readFile (usbSerialPath m) = .error .notExist →
      fs.enumerate fso = enumCandidates fso usbSerialPath (pre ++ post))
    ∧ (∀ code, fso.readFile (usbSerialPath m) = .error (.other code) →
        (∀ x ∈ pre, ∀ c, fso.readFile (usbSerialPath x) ≠ .error (.other c)) →
        fs.enumerate fso = .error (.other code)) := by
  constructor
  · intro hm
    unfold fs.enumerate
    rw [hglob]
    exact enumCandidates_skip fso usbSerialPath pre post m hm
  · intro code hm hpre
    unfold fs.enumerate
    rw [hglob]
    exact enumCandidates_abort fso usbSerialPath pre post m code hm hpre

/-- Concrete filesystem for the C10 witness: `ttyUSB0` has serial
`1111`, `ttyUSB1` has no serial attribute file, `ttyUSB2` fails with a
non-not-exist error. -/
def fsoC10 : FsOps :=
  { glob := fun pat =>
      if pat = "/dev/ttyUSB*" then .ok ["/dev/ttyUSB0", "/dev/ttyUSB1", "/dev/ttyUSB2"]
      else .ok []
    readFile := fun f =>
      if f = "/sys/class/tty/ttyUSB0/device/../../serial" then .ok "1111"
      else if f = "/sys/class/tty/ttyUSB1/device/../../serial" then .error .notExist
      else .error (.other 13) }

/-- C10 witness: on `fsoC10` the missing attribute of `ttyUSB1` is
skipped (the result equals enumerating without it), and the hard error
on `ttyUSB2` aborts the whole enumeration with that error. -/
theorem consrv_c10_witness :
    fs.enumerate fsoC10 = enumCandidates fsoC10 usbSerialPath ["/dev/ttyUSB0", "/dev/ttyUSB2"]
    ∧ fs.enumerate fsoC10 = .error (.other 13) := by
  have h0 : fsoC10.readFile (usbSerialPath "/dev/ttyUSB0") = Except.ok "1111" := rfl
  have h1 : fsoC10.readFile (usbSerialPath "/dev/ttyUSB1") = Except.error FsErr.notExist := rfl
  have h2 : fsoC10.readFile (usbSerialPath "/dev/ttyUSB2") = Except.error (FsErr.other 13) := rfl
  constructor
  · exact (consrv_c10_enumerate_errors fsoC10 ["/dev/ttyUSB0"] ["/dev/ttyUSB2"]
      "/dev/ttyUSB1" rfl).1 h1
  · refine (consrv_c10_enumerate_errors fsoC10 ["/dev/ttyUSB0", "/dev/ttyUSB1"] []
      "/dev/ttyUSB2" rfl).2 13 h2 ?_
    intro x hx c
    simp only [List.mem_cons, List.not_mem_nil, or_false] at hx
    rcases hx with hx | hx
    · subst hx
      rw [h0]
      intro hcontra
      exact Except.noConfusion hcontra
    · subst hx
      rw [h1]
      intro hcontra
      injection hcontra with hcontra2
      exact FsErr.noConfusion hcontra2

/-! ## C6: serial-number lookup (spec-modelled ACM-capable resolver) -/

/-- The last enumerated device whose serial equals `k` (the entry a Go
map retains after inserting the pairs in order). -/
def lastMatch : List (String × String) → String → Option String
  | [], _ => none
  | p :: rest, k =>
    match lastMatch rest k with
    | some v => some v
    | none => if p.2 = k then some p.1 else none

theorem lookupA_serialFold (pairs : List (String × String)) (m : List (String × String))
    (k : String) :
    lookupA (pairs.foldl (fun acc p => upsertA acc p.2 p.1) m) k
      = match lastMatch pairs k with
        | some v => some v
        | none => lookupA m k := by
  induction pairs generalizing m with
  | nil => simp [lastMatch]
  | cons p rest ih =>
    simp only [List.foldl_cons, lastMatch]
    rw [ih]
    cases lastMatch rest k with
    | some v => rfl
    | none =>
      by_cases hk : p.2 = k
      · subst hk
        simp [lookupA_upsertA_self]
      · simp only [if_neg hk]
        exact lookupA_upsertA_ne m p.2 k p.1 (fun hh => hk hh.symm)

theorem lookupA_serialToDevice (pairs : List (String × String)) (k : String) :
    lookupA (serialToDevice pairs) k = lastMatch pairs k := by
  unfold serialToDevice
  rw [lookupA_serialFold]
  cases lastMatch pairs k <;> rfl

theorem lastMatch_mem (pairs : List (String × String)) (k : String) (v : String)
    (h : lastMatch pairs k = some v) : (v, k) ∈ pairs := by
  induction pairs with
  | nil => exact absurd h (by simp [lastMatch])
  | cons p rest ih =>
    simp only [lastMatch] at h
    cases hr : lastMatch rest k with
    | some w =>
      rw [hr] at h
      exact List.mem_cons_of_mem p (ih (hr.trans h))
    | none =>
      rw [hr] at h
      by_cases hk : p.2 = k
      · rw [if_pos hk] at h
        injection h with hv
        subst hv
        subst hk
        exact List.mem_cons_self p rest
      · rw [if_neg hk] at h
        exact Option.noConfusion h

theorem lastMatch_none (pairs : List (String × String)) (k : String)
    (h : ∀ pr ∈ pairs, pr.2 ≠ k) : lastMatch pairs k = none := by
  induction pairs with
  | nil => rfl
  | cons p rest ih =>
    have hrest := ih (fun pr hpr => h pr (List.mem_cons_of_mem p hpr))
    simp only [lastMatch, hrest]
    rw [if_neg (h p (List.mem_cons_self p rest))]

theorem lastMatch_isSome (pairs : List (String × String)) (k : String)
    (pr : String × String) (hmem : pr ∈ pairs) (hk : pr.2 = k) :
    ∃ v, lastMatch pairs k = some v := by
  induction pairs with
  | nil => exact absurd hmem (List.not_mem_nil pr)
  | cons p rest ih =>
    rcases List.mem_cons.mp hmem with hp | hp
    · subst hp
      simp only [lastMatch]
      cases lastMatch rest k with
      | some v => exact ⟨v, rfl⟩
      | none => exact ⟨pr.1, by rw [if_pos hk]⟩
    · obtain ⟨v, hv⟩ := ih hp
      exact ⟨v, by simp only [lastMatch, hv]⟩

theorem enumCandidates_sound (fso : FsOps) (pathOf : String → String)
    (cands : List String) (es : List (String × String))
    (h : enumCandidates fso pathOf cands = .ok es) :
    ∀ e ∈ es, e.1 ∈ cands ∧ ∃ c, fso.readFile (pathOf e.1) = .ok c ∧ e.2 = goTrim c := by
  induction cands generalizing es with
  | nil =>
    simp only [enumCandidates] at h
    injection h with h
    subst h
    intro e he
    exact absurd he (List.not_mem_nil e)
  | cons m rest ih =>
    simp only [enumCandidates] at h
    cases hread : fso.readFile (pathOf m) with
    | error e0 =>
      cases e0 with
      | notExist =>
        rw [hread] at h
        intro e he
        obtain ⟨hmem, hc⟩ := ih es h e he
        exact ⟨List.mem_cons_of_mem m hmem, hc⟩
      | other c =>
        rw [hread] at h
        exact Except.noConfusion h
    | ok b =>
      rw [hread] at h
      cases hrest : enumCandidates fso pathOf rest with
      | error e0 =>
        rw [hrest] at h
        exact Except.noConfusion h
      | ok eds =>
        rw [hrest] at h
        injection h with h
        subst h
        intro e he
        rcases List.mem_cons.mp he with he | he
        · subst he
          exact ⟨List.mem_cons_self m rest, b, hread, rfl⟩
        · obtain ⟨hmem, hc⟩ := ih eds hrest e he
          exact ⟨List.mem_cons_of_mem m hmem, hc⟩

theorem enumCandidates_complete (fso : FsOps) (pathOf : String → String)
    (cands : List String) (es : List (String × String))
    (h : enumCandidates fso pathOf cands = .ok es) :
    ∀ p ∈ cands, ∀ c, fso.readFile (pathOf p) = .ok c → (p, goTrim c) ∈ es := by
  induction cands generalizing es with
  | nil =>
    intro p hp
    exact absurd hp (List.not_mem_nil p)
  | cons m rest ih =>
    simp only [enumCandidates] at h
    intro p hp c hc
    cases hread : fso.readFile (pathOf m) with
    | error e0 =>
      cases e0 with
      | notExist =>
        rw [hread] at h
        rcases List.mem_cons.mp hp with hp | hp
        · subst hp
          rw [hread] at hc
          exact Except.noConfusion hc
        · exact ih es h p hp c hc
      | other c0 =>
        rw [hread] at h
        exact Except.noConfusion h
    | ok b =>
      rw [hread] at h
      cases hrest : enumCandidates fso pathOf rest with
      | error e0 =>
        rw [hrest] at h
        exact Except.noConfusion h
      | ok eds =>
        rw [hrest] at h
        injection h with h
        subst h
        rcases List.mem_cons.mp hp with hp | hp
        · subst hp
          rw [hread] at hc
          injection hc with hc
          subst hc
          exact List.mem_cons_self _ _
        · exact List.mem_cons_of_mem _ (ih eds hrest p hp c hc)

/-- C6: for a device entry specifying a USB serial number, the resolver
(spec-modelled, see `enumerateSpec`) enumerates candidates from both
globs `/dev/ttyUSB*` and `/dev/ttyACM*`; every enumerated pair comes
from a candidate of one of the two globs with its class-specific sysfs
serial attribute read and whitespace-trimmed, and every candidate whose
attribute reads successfully is enumerated; resolution returns exactly a
path enumerated with the configured serial, succeeds whenever some
candidate matches, and fails with a not-found error when no candidate
matches. -/
theorem consrv_c6_serial_lookup (fso : FsOps) (ser : String)
    (usb acm : List String) (pairs : List (String × String))
    (husb : fso.glob "/dev/ttyUSB*" = .ok usb)
    (hacm : fso.glob "/dev/ttyACM*" = .ok acm)
    (henum : enumerateSpec fso = .ok pairs) :
    (∀ pr ∈ pairs,
       (pr.1 ∈ usb ∧ ∃ c, fso.readFile (usbSerialPath pr.1) = .ok c ∧ pr.2 = goTrim c)
       ∨ (pr.1 ∈ acm ∧ ∃ c, fso.readFile (acmSerialPath pr.1) = .ok c ∧ pr.2 = goTrim c))
    ∧ (∀ p ∈ usb, ∀ c, fso.readFile (usbSerialPath p) = .ok c → (p, goTrim c) ∈ pairs)
    ∧ (∀ p ∈ acm, ∀ c, fso.readFile (acmSerialPath p) = .ok c → (p, goTrim c) ∈ pairs)
    ∧ (∀ p, resolveSerial fso ser = .ok p → (p, ser) ∈ pairs)
    ∧ ((∃ pr ∈ pairs, pr.2 = ser) → ∃ p, resolveSerial fso ser = .ok p)
    ∧ ((∀ pr ∈ pairs, pr.2 ≠ ser) → resolveSerial fso ser = .error .notExist) := by
  have henumOrig := henum
  unfold enumerateSpec at henum
  rw [husb, hacm] at henum
  have henum2 :
      (match enumCandidates fso usbSerialPath usb with
        | Except.error e => Except.error e
        | Except.ok e1 =>
          match enumCandidates fso acmSerialPath acm with
          | Except.error e => Except.error e
          | Except.ok e2 => Except.ok (e1 ++ e2)) = Except.ok pairs := henum
  clear henum
  cases he1 : enumCandidates fso usbSerialPath usb with
  | error e0 =>
    rw [he1] at henum2
    exact Except.noConfusion henum2
  | ok e1 =>
    rw [he1] at henum2
    cases he2 : enumCandidates fso acmSerialPath acm with
    | error e0 =>
      rw [he2] at henum2
      exact Except.noConfusion henum2
    | ok e2 =>
      rw [he2] at henum2
      injection henum2 with hpairs
      subst hpairs
      have hres : ∀ k, resolveSerial fso k =
          match lastMatch (e1 ++ e2) k with
          | some dev => .ok dev
          | none => .error .notExist := by
        intro k
        unfold resolveSerial
        simp only [henumOrig]
        rw [lookupA_serialToDevice]
      refine ⟨?_, ?_, ?_, ?_, ?_, ?_⟩
      · intro pr hpr
        rcases List.mem_append.mp hpr with hpr | hpr
        · exact Or.inl (enumCandidates_sound fso usbSerialPath usb e1 he1 pr hpr)
        · exact Or.inr (enumCandidates_sound fso acmSerialPath acm e2 he2 pr hpr)
      · intro p hp c hc
        exact List.mem_append_left e2 (enumCandidates_complete fso usbSerialPath usb e1 he1 p hp c hc)
      · intro p hp c hc
        exact List.mem_append_right e1 (enumCandidates_complete fso acmSerialPath acm e2 he2 p hp c hc)
      · intro p hp
        rw [hres ser] at hp
        cases hlm : lastMatch (e1 ++ e2) ser with
        | some v =>
          rw [hlm] at hp
          injection hp with hp
          subst hp
          exact lastMatch_mem _ _ _ hlm
        | none =>
          rw [hlm] at hp
          exact Except.noConfusion hp
      · intro hex
        obtain ⟨pr, hpr, hk⟩ := hex
        obtain ⟨v, hv⟩ := lastMatch_isSome (e1 ++ e2) ser pr hpr hk
        refine ⟨v, ?_⟩
        rw [hres ser, hv]
      · intro hall
        rw [hres ser, lastMatch_none (e1 ++ e2) ser hall]

/-- Concrete filesystem for the C6 witness (the spec's serial-lookup
scenario): `ttyUSB0` has serial `1111`, `ttyUSB1` has no serial file,
`ttyACM0` has serial `3333`. -/
def fsoC6 : FsOps :=
  { glob := fun pat =>
      if pat = "/dev/ttyUSB*" then .ok ["/dev/ttyUSB0", "/dev/ttyUSB1"]
      else if pat = "/dev/ttyACM*" then .ok ["/dev/ttyACM0"]
      else .error (.other 0)
    readFile := fun f =>
      if f = "/sys/class/tty/ttyUSB0/device/../../serial" then .ok "1111"
      else if f = "/sys/class/tty/ttyUSB1/device/../../serial" then .error .notExist
      else if f = "/sys/class/tty/ttyACM0/device/../serial" then .ok "3333"
      else .error (.other 1) }

/-- C6 witness: on the scenario filesystem, serial `1111` resolves to
`/dev/ttyUSB0`, serial `3333` resolves to `/dev/ttyACM0`, and serial
`DEADBEEF` fails with the not-found error. -/
theorem consrv_c6_witness :
    enumerateSpec fsoC6 = .ok [("/dev/ttyUSB0", "1111"), ("/dev/ttyACM0", "3333")]
    ∧ resolveSerial fsoC6 "1111" = .ok "/dev/ttyUSB0"
    ∧ resolveSerial fsoC6 "3333" = .ok "/dev/ttyACM0"
    ∧ resolveSerial fsoC6 "DEADBEEF" = .error .notExist := by
  have henum : enumerateSpec fsoC6 = .ok [("/dev/ttyUSB0", "1111"), ("/dev/ttyACM0", "3333")] := rfl
  have h := consrv_c6_serial_lookup fsoC6 "DEADBEEF" ["/dev/ttyUSB0", "/dev/ttyUSB1"]
    ["/dev/ttyACM0"] [("/dev/ttyUSB0", "1111"), ("/dev/ttyACM0", "3333")] rfl rfl henum
  refine ⟨henum, rfl, rfl, ?_⟩
  refine h.2.2.2.2.2 ?_
  intro pr hpr
  simp only [List.mem_cons, List.not_mem_nil, or_false] at hpr
  rcases hpr with hpr | hpr <;> subst hpr <;> decide

/-! ## C1: identity store construction and authentication -/

theorem setAdd_contains (s : List String) (x f : String) :
    ((setAdd s x).contains f = true) ↔ (s.contains f = true ∨ f = x) := by
  unfold setAdd
  by_cases hx : s.contains x
  · rw [if_pos hx]
    constructor
    · exact Or.inl
    · rintro (hc | rfl)
      · exact hc
      · exact hx
  · rw [if_neg hx]
    simp

theorem addIdentity_fold_perDevice (fp : PubKey → String) (l : List identity)
    (know : List (String × String)) (acc : identities) :
    ((l.foldl (addIdentity fp) (know, acc)).2).perDevice = acc.perDevice := by
  induction l generalizing know acc with
  | nil => rfl
  | cons id rest ih =>
    simp only [List.foldl_cons, addIdentity]
    exact ih _ _

theorem addIdentity_fold_global (fp : PubKey → String) (l : List identity)
    (know : List (String × String)) (acc : identities) (f : String) :
    (((l.foldl (addIdentity fp) (know, acc)).2).global.contains f = true)
      ↔ (acc.global.contains f = true ∨ ∃ id ∈ l, fp id.PublicKey = f) := by
  induction l generalizing know acc with
  | nil => simp
  | cons id rest ih =>
    simp only [List.foldl_cons, addIdentity]
    rw [ih]
    rw [setAdd_contains]
    simp only [List.mem_cons]
    constructor
    · rintro ((hc | rfl) | ⟨id', hm, hf⟩)
      · exact Or.inl hc
      · exact Or.inr ⟨id, Or.inl rfl, rfl⟩
      · exact Or.inr ⟨id', Or.inr hm, hf⟩
    · rintro (hc | ⟨id', hm | hm, hf⟩)
      · exact Or.inl (Or.inl hc)
      · subst hm
        exact Or.inl (Or.inr hf.symm)
      · exact Or.inr ⟨id', hm, hf⟩

theorem addIdentity_fold_known (fp : PubKey → String) (l : List identity)
    (know : List (String × String)) (acc : identities) (n f : String)
    (h : lookupA (l.foldl (addIdentity fp) (know, acc)).1 n = some f) :
    lookupA know n = some f ∨ ∃ id ∈ l, id.Name = n ∧ fp id.PublicKey = f := by
  induction l generalizing know acc with
  | nil => exact Or.inl h
  | cons id rest ih =>
    simp only [List.foldl_cons, addIdentity] at h
    rcases ih _ _ h with h' | ⟨id', hm, hn, hf⟩
    · by_cases hn : n = id.Name
      · subst hn
        rw [lookupA_upsertA_self] at h'
        injection h' with h'
        exact Or.inr ⟨id, List.mem_cons_self id rest, rfl, h'⟩
      · rw [lookupA_upsertA_ne _ _ _ _ hn] at h'
        exact Or.inl h'
    · exact Or.inr ⟨id', List.mem_cons_of_mem id hm, hn, hf⟩

theorem addIdentity_fold_toName (fp : PubKey → String) (l : List identity)
    (know : List (String × String)) (acc : identities) (f nm : String)
    (h : lookupA ((l.foldl (addIdentity fp) (know, acc)).2).toName f = some nm) :
    lookupA acc.toName f = some nm ∨ ∃ id ∈ l, fp id.PublicKey = f ∧ id.Name = nm := by
  induction l generalizing know acc with
  | nil => exact Or.inl h
  | cons id rest ih =>
    simp only [List.foldl_cons, addIdentity] at h
    rcases ih _ _ h with h' | ⟨id', hm, hf, hn⟩
    · by_cases hf : f = fp id.PublicKey
      · subst hf
        rw [lookupA_upsertA_self] at h'
        injection h' with h'
        exact Or.inr ⟨id, List.mem_cons_self id rest, rfl, h'⟩
      · rw [lookupA_upsertA_ne _ _ _ _ hf] at h'
        exact Or.inl h'
    · exact Or.inr ⟨id', List.mem_cons_of_mem id hm, hf, hn⟩

theorem addIdentity_fold_toName_isSome (fp : PubKey → String) (l : List identity)
    (know : List (String × String)) (acc : identities) (f : String)
    (hacc : ∀ g, acc.global.contains g = true → (lookupA acc.toName g).isSome = true)
    (h : ((l.foldl (addIdentity fp) (know, acc)).2).global.contains f = true) :
    (lookupA ((l.foldl (addIdentity fp) (know, acc)).2).toName f).isSome = true := by
  induction l generalizing know acc with
  | nil => exact hacc f h
  | cons id rest ih =>
    simp only [List.foldl_cons, addIdentity] at h ⊢
    refine ih _ _ ?_ h
    intro g hg
    rw [setAdd_contains] at hg
    rcases hg with hg | rfl
    · by_cases hgf : g = fp id.PublicKey
      · subst hgf
        rw [lookupA_upsertA_self]
        rfl
      · rw [lookupA_upsertA_ne _ _ _ _ hgf]
        exact hacc g hg
    · rw [lookupA_upsertA_self]
      rfl

theorem addDeviceIdentity_shape (know : List (String × String)) (dn idn : String)
    (ids out : identities) (h : addDeviceIdentity know dn ids idn = some out) :
    ∃ f, lookupA know idn = some f
      ∧ out = { ids with
          perDevice := upsertA ids.perDevice dn (setAdd ((lookupA ids.perDevice dn).getD []) f) } := by
  unfold addDeviceIdentity at h
  cases hk : lookupA know idn with
  | none =>
    rw [hk] at h
    exact Option.noConfusion h
  | some f =>
    rw [hk] at h
    injection h with h
    exact ⟨f, rfl, h.symm⟩

/-- The invariant carried through the device loop: every fingerprint in
any per-device allow-set is in the range of the `known` map. -/
def perDeviceFromKnown (know : List (String × String)) (ids : identities) : Prop :=
  ∀ n pd f, lookupA ids.perDevice n = some pd → pd.contains f = true →
    ∃ nm, lookupA know nm = some f

theorem addDeviceIdentity_invariant (know : List (String × String)) (dn idn : String)
    (ids out : identities) (h : addDeviceIdentity know dn ids idn = some out)
    (hinv : perDeviceFromKnown know ids) : perDeviceFromKnown know out := by
  obtain ⟨f0, hk, hout⟩ := addDeviceIdentity_shape know dn idn ids out h
  subst hout
  intro n pd f hl hc
  by_cases hn : n = dn
  · subst hn
    rw [lookupA_upsertA_self] at hl
    injection hl with hl
    subst hl
    rw [setAdd_contains] at hc
    rcases hc with hc | rfl
    · cases holk : lookupA ids.perDevice n with
      | none =>
        rw [holk] at hc
        exact absurd hc (by simp)
      | some pd0 =>
        rw [holk] at hc
        exact hinv n pd0 f holk hc
    · exact ⟨idn, hk⟩
  · rw [lookupA_upsertA_ne _ _ _ _ hn] at hl
    exact hinv n pd f hl hc

theorem addDeviceIdentity_fold_invariant (know : List (String × String)) (dn : String)
    (l : List String) (ids out : identities)
    (h : l.foldlM (addDeviceIdentity know dn) ids = some out)
    (hinv : perDeviceFromKnown know ids) : perDeviceFromKnown know out := by
  induction l generalizing ids with
  | nil =>
    injection h with h
    subst h
    exact hinv
  | cons idn rest ih =>
    rw [List.foldlM_cons] at h
    cases hstep : addDeviceIdentity know dn ids idn with
    | none =>
      rw [hstep] at h
      simp at h
    | some mid =>
      rw [hstep] at h
      exact ih mid h (addDeviceIdentity_invariant know dn idn ids mid hstep hinv)

theorem addDeviceIdentity_fold_globalToName (know : List (String × String)) (dn : String)
    (l : List String) (ids out : identities)
    (h : l.foldlM (addDeviceIdentity know dn) ids = some out) :
    out.global = ids.global ∧ out.toName = ids.toName := by
  induction l generalizing ids with
  | nil =>
    injection h with h
    subst h
    exact ⟨rfl, rfl⟩
  | cons idn rest ih =>
    rw [List.foldlM_cons] at h
    cases hstep : addDeviceIdentity know dn ids idn with
    | none =>
      rw [hstep] at h
      simp at h
    | some mid =>
      rw [hstep] at h
      obtain ⟨f0, _, hout⟩ := addDeviceIdentity_shape know dn idn ids mid hstep
      obtain ⟨hg, ht⟩ := ih mid h
      subst hout
      exact ⟨hg, ht⟩

theorem addDeviceIds_globalToName (know : List (String × String)) (ids out : identities)
    (d : rawDevice) (h : addDeviceIds know ids d = some out) :
    out.global = ids.global ∧ out.toName = ids.toName := by
  unfold addDeviceIds at h
  by_cases he : d.Identities.isEmpty
  · rw [if_pos he] at h
    injection h with h
    subst h
    exact ⟨rfl, rfl⟩
  · rw [if_neg he] at h
    by_cases hn : (lookupA ids.perDevice d.Name).isNone
    · rw [if_pos hn] at h
      have h' : List.foldlM (addDeviceIdentity know d.Name)
          { ids with perDevice := upsertA ids.perDevice d.Name [] } d.Identities = some out := h
      have hres := addDeviceIdentity_fold_globalToName know d.Name d.Identities
        { ids with perDevice := upsertA ids.perDevice d.Name [] } out h'
      exact hres
    · rw [if_neg hn] at h
      have h' : List.foldlM (addDeviceIdentity know d.Name) ids d.Identities = some out := h
      exact addDeviceIdentity_fold_globalToName know d.Name d.Identities ids out h'

theorem addDeviceIds_invariant (know : List (String × String)) (ids out : identities)
    (d : rawDevice) (h : addDeviceIds know ids d = some out)
    (hinv : perDeviceFromKnown know ids) : perDeviceFromKnown know out := by
  unfold addDeviceIds at h
  by_cases he : d.Identities.isEmpty
  · rw [if_pos he] at h
    injection h with h
    subst h
    exact hinv
  · rw [if_neg he] at h
    by_cases hn : (lookupA ids.perDevice d.Name).isNone
    · rw [if_pos hn] at h
      have h' : List.foldlM (addDeviceIdentity know d.Name)
          { ids with perDevice := upsertA ids.perDevice d.Name [] } d.Identities = some out := h
      refine addDeviceIdentity_fold_invariant know d.Name d.Identities _ out h' ?_
      intro n pd f hl hc
      by_cases hdn : n = d.Name
      · subst hdn
        rw [lookupA_upsertA_self] at hl
        injection hl with hl
        subst hl
        exact absurd hc (by simp)
      · rw [lookupA_upsertA_ne _ _ _ _ hdn] at hl
        exact hinv n pd f hl hc
    · rw [if_neg hn] at h
      have h' : List.foldlM (addDeviceIdentity know d.Name) ids d.Identities = some out := h
      exact addDeviceIdentity_fold_invariant know d.Name d.Identities ids out h' hinv

theorem devices_fold_globalToName (know : List (String × String)) (ds : List rawDevice)
    (ids out : identities) (h : ds.foldlM (addDeviceIds know) ids = some out) :
    out.global = ids.global ∧ out.toName = ids.toName := by
  induction ds generalizing ids with
  | nil =>
    injection h with h
    subst h
    exact ⟨rfl, rfl⟩
  | cons d rest ih =>
    rw [List.foldlM_cons] at h
    cases hstep : addDeviceIds know ids d with
    | none =>
      rw [hstep] at h
      simp at h
    | some mid =>
      rw [hstep] at h
      obtain ⟨hg1, ht1⟩ := addDeviceIds_globalToName know ids mid d hstep
      obtain ⟨hg2, ht2⟩ := ih mid h
      exact ⟨hg2.trans hg1, ht2.trans ht1⟩

theorem devices_fold_invariant (know : List (String × String)) (ds : List rawDevice)
    (ids out : identities) (h : ds.foldlM (addDeviceIds know) ids = some out)
    (hinv : perDeviceFromKnown know ids) : perDeviceFromKnown know out := by
  induction ds generalizing ids with
  | nil =>
    injection h with h
    subst h
    exact hinv
  | cons d rest ih =>
    rw [List.foldlM_cons] at h
    cases hstep : addDeviceIds know ids d with
    | none =>
      rw [hstep] at h
      simp at h
    | some mid =>
      rw [hstep] at h
      exact ih mid h (addDeviceIds_invariant know ids mid d hstep hinv)

/-- The unfolded shape of `identities.authenticate`. -/
theorem authenticate_shape (fp : PubKey → String) (ids : identities) (user : String)
    (key : PubKey) :
    identities.authenticate fp ids user key =
      (match lookupA ids.perDevice user with
        | some pd =>
          if pd.contains (fp key) = true then ((lookupA ids.toName (fp key)).getD "", true)
          else ("", false)
        | none =>
          if ids.global.contains (fp key) = true then ((lookupA ids.toName (fp key)).getD "", true)
          else ("", false)) := rfl

/-- C1: for a store built by `newIdentities` from a configuration,
authentication accepts a (user, key) pair exactly when either the user's
per-device allow-set exists and contains the key's fingerprint, or no
per-device allow-set exists for the user and the global allow-set
contains the fingerprint; the global allow-set contains exactly the
fingerprints of the configured identities; and on acceptance the
returned friendly name is the name of a configured identity whose
fingerprint is the key's. -/
theorem consrv_c1_authenticate_iff (fp : PubKey → String) (cfg : config) (ids : identities)
    (user : String) (key : PubKey)
    (h : newIdentities fp (some cfg) = some ids) :
    (∀ f, (ids.global.contains f = true) ↔ ∃ id ∈ cfg.Identities, fp id.PublicKey = f)
    ∧ (((identities.authenticate fp ids user key).2 = true) ↔
        ((∃ pd, lookupA ids.perDevice user = some pd ∧ pd.contains (fp key) = true)
         ∨ (lookupA ids.perDevice user = none ∧ ids.global.contains (fp key) = true)))
    ∧ ((identities.authenticate fp ids user key).2 = true →
        ∃ id ∈ cfg.Identities, fp id.PublicKey = fp key
          ∧ (identities.authenticate fp ids user key).1 = id.Name) := by
  have h' : cfg.Devices.foldlM
      (addDeviceIds (cfg.Identities.foldl (addIdentity fp) ([], ⟨[], [], []⟩)).1)
      (cfg.Identities.foldl (addIdentity fp) ([], ⟨[], [], []⟩)).2 = some ids := h
  have hGT := devices_fold_globalToName _ cfg.Devices _ ids h'
  have hpd0 : ((cfg.Identities.foldl (addIdentity fp) ([], ⟨[], [], []⟩)).2).perDevice = [] :=
    addIdentity_fold_perDevice fp cfg.Identities [] ⟨[], [], []⟩
  have hInv : perDeviceFromKnown (cfg.Identities.foldl (addIdentity fp) ([], ⟨[], [], []⟩)).1 ids := by
    refine devices_fold_invariant _ cfg.Devices _ ids h' ?_
    intro n pd f hl hc
    rw [hpd0] at hl
    simp [lookupA] at hl
  have hglobal : ∀ f, (ids.global.contains f = true) ↔ ∃ id ∈ cfg.Identities, fp id.PublicKey = f := by
    intro f
    rw [hGT.1, addIdentity_fold_global]
    simp
  have h2 : ((identities.authenticate fp ids user key).2 = true) ↔
      ((∃ pd, lookupA ids.perDevice user = some pd ∧ pd.contains (fp key) = true)
       ∨ (lookupA ids.perDevice user = none ∧ ids.global.contains (fp key) = true)) := by
    cases hl : lookupA ids.perDevice user with
    | some pd =>
      have hred : identities.authenticate fp ids user key
          = (if pd.contains (fp key) = true then ((lookupA ids.toName (fp key)).getD "", true)
             else ("", false)) := by
        rw [authenticate_shape, hl]
      by_cases hc : pd.contains (fp key) = true
      · rw [hred, if_pos hc]
        constructor
        · intro _
          exact Or.inl ⟨pd, rfl, hc⟩
        · intro _
          rfl
      · rw [hred, if_neg hc]
        constructor
        · intro hfalse
          exact absurd hfalse (by decide)
        · rintro (⟨pd', hpd', hc'⟩ | ⟨hnone, _⟩)
          · injection hpd' with hpd'
            subst hpd'
            exact absurd hc' hc
          · exact Option.noConfusion hnone
    | none =>
      have hred : identities.authenticate fp ids user key
          = (if ids.global.contains (fp key) = true
             then ((lookupA ids.toName (fp key)).getD "", true) else ("", false)) := by
        rw [authenticate_shape, hl]
      by_cases hg : ids.global.contains (fp key) = true
      · rw [hred, if_pos hg]
        constructor
        · intro _
          exact Or.inr ⟨rfl, hg⟩
        · intro _
          rfl
      · rw [hred, if_neg hg]
        constructor
        · intro hfalse
          exact absurd hfalse (by decide)
        · rintro (⟨pd', hpd', _⟩ | ⟨_, hg'⟩)
          · exact Option.noConfusion hpd'
          · exact absurd hg' hg
  refine ⟨hglobal, h2, ?_⟩
  intro hacc
  have hgc : ids.global.contains (fp key) = true := by
    rcases h2.mp hacc with ⟨pd, hpd, hc⟩ | ⟨_, hg⟩
    · obtain ⟨nm, hnm⟩ := hInv user pd (fp key) hpd hc
      rcases addIdentity_fold_known fp cfg.Identities [] ⟨[], [], []⟩ nm (fp key) hnm with
        hk | ⟨id0, hm, _, hfp⟩
      · simp [lookupA] at hk
      · exact (hglobal (fp key)).mpr ⟨id0, hm, hfp⟩
    · exact hg
  have hsome : (lookupA ids.toName (fp key)).isSome = true := by
    rw [hGT.2]
    refine addIdentity_fold_toName_isSome fp cfg.Identities [] ⟨[], [], []⟩ (fp key) ?_ ?_
    · intro g hg
      simp at hg
    · rw [← hGT.1]
      exact hgc
  obtain ⟨nm0, hnm0⟩ := Option.isSome_iff_exists.mp hsome
  rcases addIdentity_fold_toName fp cfg.Identities [] ⟨[], [], []⟩ (fp key) nm0
      (by rw [← hGT.2]; exact hnm0) with hemp | ⟨id0, hm, hfp, hname⟩
  · simp [lookupA] at hemp
  · refine ⟨id0, hm, hfp, ?_⟩
    rcases h2.mp hacc with ⟨pd, hpd, hc⟩ | ⟨hnone, hg⟩
    · have hred : identities.authenticate fp ids user key
          = (if pd.contains (fp key) = true then ((lookupA ids.toName (fp key)).getD "", true)
             else ("", false)) := by
        rw [authenticate_shape, hpd]
      rw [hred, if_pos hc, hnm0]
      exact hname.symm
    · have hred : identities.authenticate fp ids user key
          = (if ids.global.contains (fp key) = true
             then ((lookupA ids.toName (fp key)).getD "", true) else ("", false)) := by
        rw [authenticate_shape, hnone]
      rw [hred, if_pos hg, hnm0]
      exact hname.symm

/-- The fingerprint collaborator used by the witnesses. -/
def fpW : PubKey → String := fun s => "SHA256:" ++ s

/-- The spec's per-device ACL scenario: devices `foo` (allow `a`), `bar`
(allow `b`), `baz` (allow `a`, `b`); identities `a`, `b`, `c`. -/
def cfgW : config :=
  { Server := ⟨":2222"⟩
    Devices := [⟨"foo", "/dev/ttyUSB0", "", 115200, ["a"]⟩,
                ⟨"bar", "/dev/ttyUSB1", "", 115200, ["b"]⟩,
                ⟨"baz", "/dev/ttyUSB2", "", 115200, ["a", "b"]⟩]
    Identities := [⟨"a", "keyA"⟩, ⟨"b", "keyB"⟩, ⟨"c", "keyC"⟩]
    Debug := ⟨"", false, false⟩ }

/-- The identity store `newIdentities` builds from `cfgW`. -/
def idsW : identities :=
  { perDevice := [("foo", ["SHA256:keyA"]), ("bar", ["SHA256:keyB"]),
                  ("baz", ["SHA256:keyA", "SHA256:keyB"])]
    global := ["SHA256:keyA", "SHA256:keyB", "SHA256:keyC"]
    toName := [("SHA256:keyA", "a"), ("SHA256:keyB", "b"), ("SHA256:keyC", "c")] }

/-- C1 witness: on the spec's ACL scenario, `(baz, keyB)` authenticates
by its per-device allow-set and `(foo, keyB)` is rejected. -/
theorem consrv_c1_witness :
    newIdentities fpW (some cfgW) = some idsW
    ∧ (identities.authenticate fpW idsW "baz" "keyB").2 = true
    ∧ (identities.authenticate fpW idsW "foo" "keyB").2 = false := by
  have hbuild : newIdentities fpW (some cfgW) = some idsW := by decide
  refine ⟨hbuild, ?_, by decide⟩
  exact (consrv_c1_authenticate_iff fpW cfgW idsW "baz" "keyB" hbuild).2.1.mpr
    (Or.inl ⟨["SHA256:keyA", "SHA256:keyB"], rfl, by decide⟩)

/-! ## C2: mux fan-out delivery and ordering -/

theorem dispatchClient_id (ev : ReadEvent) (c : MuxClient) :
    (dispatchClient ev c).id = c.id := by
  unfold dispatchClient
  by_cases h1 : c.removed
  · rw [if_pos h1]
  · rw [if_neg h1]
    by_cases h2 : c.cancelled
    · rw [if_pos h2]
    · rw [if_neg h2]

theorem cancelClient_id (cid : Nat) (c : MuxClient) :
    ((fun c => if c.id = cid then { c with cancelled := true } else c) c).id = c.id := by
  by_cases h : c.id = cid
  · simp only [if_pos h]
  · simp only [if_neg h]

theorem findClientL_map (l : List MuxClient) (f : MuxClient → MuxClient) (cid : Nat)
    (hf : ∀ c, (f c).id = c.id) :
    findClientL (l.map f) cid = (findClientL l cid).map f := by
  induction l with
  | nil => rfl
  | cons c rest ih =>
    simp only [List.map_cons, findClientL, hf c]
    by_cases hc : c.id = cid
    · rw [if_pos hc, if_pos hc]
      rfl
    · rw [if_neg hc, if_neg hc, ih]

theorem findClientL_append_some (l1 l2 : List MuxClient) (cid : Nat) (c : MuxClient)
    (h : findClientL l1 cid = some c) : findClientL (l1 ++ l2) cid = some c := by
  induction l1 with
  | nil => exact Option.noConfusion h
  | cons c0 rest ih =>
    simp only [findClientL] at h
    simp only [List.cons_append, findClientL]
    by_cases hc : c0.id = cid
    · rw [if_pos hc] at h
      rw [if_pos hc]
      exact h
    · rw [if_neg hc] at h
      rw [if_neg hc]
      exact ih h

theorem findClientL_append_none (l1 l2 : List MuxClient) (cid : Nat)
    (h : findClientL l1 cid = none) : findClientL (l1 ++ l2) cid = findClientL l2 cid := by
  induction l1 with
  | nil => rfl
  | cons c0 rest ih =>
    simp only [findClientL] at h
    simp only [List.cons_append, findClientL]
    by_cases hc : c0.id = cid
    · rw [if_pos hc] at h
      exact Option.noConfusion h
    · rw [if_neg hc] at h
      rw [if_neg hc]
      exact ih h

theorem findClientL_none_of_ne (l : List MuxClient) (cid : Nat)
    (h : ∀ c ∈ l, c.id ≠ cid) : findClientL l cid = none := by
  induction l with
  | nil => rfl
  | cons c0 rest ih =>
    simp only [findClientL]
    rw [if_neg (h c0 (List.mem_cons_self c0 rest))]
    exact ih (fun c hc => h c (List.mem_cons_of_mem c0 hc))

/-- Well-formedness of the mux state: all client ids are below the
auto-increment counter. -/
def muxWF (s : MuxState) : Prop := ∀ c ∈ s.clients, c.id < s.nextId

theorem muxWF_step (s : MuxState) (st : MuxStep) (h : muxWF s) : muxWF (muxStepFn s st) := by
  cases st with
  | attach =>
    intro c hc
    rcases List.mem_append.mp hc with hc | hc
    · exact Nat.lt_trans (h c hc) (Nat.lt_succ_self _)
    · rcases List.mem_singleton.mp hc with rfl
      exact Nat.lt_succ_self _
  | cancel cid =>
    intro c hc
    obtain ⟨c0, hc0, rfl⟩ := List.mem_map.mp hc
    have := h c0 hc0
    rw [show s.nextId = (mux.cancel s cid).nextId from rfl] at this
    calc ((fun c => if c.id = cid then { c with cancelled := true } else c) c0).id
        = c0.id := cancelClient_id cid c0
      _ < _ := this
  | doRead b n err =>
    intro c hc
    obtain ⟨c0, hc0, rfl⟩ := List.mem_map.mp hc
    have := h c0 hc0
    calc (dispatchClient ⟨b.take n, err⟩ c0).id = c0.id := dispatchClient_id _ c0
      _ < _ := this

theorem muxWF_run (s : MuxState) (t : List MuxStep) (h : muxWF s) : muxWF (runMux s t) := by
  induction t generalizing s with
  | nil => exact h
  | cons st rest ih =>
    simp only [runMux, List.foldl_cons]
    exact ih (muxStepFn s st) (muxWF_step s st h)

theorem runMux_cons (s : MuxState) (st : MuxStep) (rest : List MuxStep) :
    runMux s (st :: rest) = runMux (muxStepFn s st) rest := rfl

theorem nextId_run (s : MuxState) (t : List MuxStep) :
    (runMux s t).nextId = s.nextId + numAttaches t := by
  induction t generalizing s with
  | nil => rfl
  | cons st rest ih =>
    rw [runMux_cons, ih]
    cases st with
    | attach =>
      simp only [muxStepFn, mux.Attach, numAttaches]
      omega
    | cancel cid => rfl
    | doRead b n err => rfl

theorem runMux_dead (t : List MuxStep) (s : MuxState) (cid : Nat) (c : MuxClient)
    (hfind : findClient s cid = some c) (hcan : c.cancelled = true) :
    ∃ c2, findClient (runMux s t) cid = some c2 ∧ c2.cancelled = true
      ∧ c2.delivered = c.delivered := by
  induction t generalizing s c with
  | nil => exact ⟨c, hfind, hcan, rfl⟩
  | cons st rest ih =>
    rw [runMux_cons]
    cases st with
    | attach =>
      exact ih _ c (findClientL_append_some _ _ _ _ hfind) hcan
    | cancel cid' =>
      have hmap2 : findClient (mux.cancel s cid') cid
          = some (if c.id = cid' then { c with cancelled := true } else c) := by
        rw [show findClient (mux.cancel s cid') cid
            = (findClient s cid).map (fun c => if c.id = cid' then { c with cancelled := true } else c)
          from findClientL_map s.clients _ cid (cancelClient_id cid'), hfind]
        rfl
      by_cases hc : c.id = cid'
      · rw [if_pos hc] at hmap2
        obtain ⟨c2, h1, h2, h3⟩ := ih _ _ hmap2 rfl
        exact ⟨c2, h1, h2, h3⟩
      · rw [if_neg hc] at hmap2
        exact ih _ _ hmap2 hcan
    | doRead b n err =>
      have hmap2 : findClient (mux.doRead s b n err) cid
          = some (dispatchClient ⟨b.take n, err⟩ c) := by
        rw [show findClient (mux.doRead s b n err) cid
            = (findClient s cid).map (dispatchClient ⟨b.take n, err⟩)
          from findClientL_map s.clients _ cid (dispatchClient_id _), hfind]
        rfl
      by_cases hr : c.removed
      · rw [show dispatchClient ⟨b.take n, err⟩ c = c from by
          unfold dispatchClient; rw [if_pos hr]] at hmap2
        exact ih _ _ hmap2 hcan
      · rw [show dispatchClient ⟨b.take n, err⟩ c = { c with removed := true } from by
          unfold dispatchClient; rw [if_neg hr, if_pos hcan]] at hmap2
        obtain ⟨c2, h1, h2, h3⟩ := ih _ _ hmap2 hcan
        exact ⟨c2, h1, h2, h3⟩

theorem runMux_live (t : List MuxStep) (s : MuxState) (cid : Nat) (d : List ReadEvent)
    (hfind : findClient s cid = some ⟨cid, false, false, d⟩) :
    ∃ c2, findClient (runMux s t) cid = some c2
      ∧ c2.delivered = d ++ deliveredSpec cid t := by
  induction t generalizing s d with
  | nil =>
    refine ⟨_, hfind, ?_⟩
    simp [deliveredSpec]
  | cons st rest ih =>
    rw [runMux_cons]
    cases st with
    | attach =>
      have hfind2 : findClient (muxStepFn s MuxStep.attach) cid = some ⟨cid, false, false, d⟩ :=
        findClientL_append_some _ _ _ _ hfind
      obtain ⟨c2, h1, h2⟩ := ih _ d hfind2
      exact ⟨c2, h1, h2⟩
    | cancel cid' =>
      have hmap2 : findClient (mux.cancel s cid') cid
          = some ((fun c => if c.id = cid' then { c with cancelled := true } else c)
              (⟨cid, false, false, d⟩ : MuxClient)) := by
        rw [show findClient (mux.cancel s cid') cid
            = (findClient s cid).map (fun c => if c.id = cid' then { c with cancelled := true } else c)
          from findClientL_map s.clients _ cid (cancelClient_id cid'), hfind]
        rfl
      have hds : deliveredSpec cid (MuxStep.cancel cid' :: rest)
          = if cid' = cid then [] else deliveredSpec cid rest := rfl
      by_cases hc : cid = cid'
      · rw [show ((fun c => if c.id = cid' then { c with cancelled := true } else c)
            (⟨cid, false, false, d⟩ : MuxClient)) = ⟨cid, true, false, d⟩ from by simp [hc]] at hmap2
        obtain ⟨c2, h1, h2, h3⟩ := runMux_dead rest _ cid _ hmap2 rfl
        refine ⟨c2, h1, ?_⟩
        rw [h3, hds, if_pos hc.symm]
        simp
      · rw [show ((fun c => if c.id = cid' then { c with cancelled := true } else c)
            (⟨cid, false, false, d⟩ : MuxClient)) = ⟨cid, false, false, d⟩ from by simp [hc]] at hmap2
        obtain ⟨c2, h1, h2⟩ := ih _ d hmap2
        refine ⟨c2, h1, ?_⟩
        rw [h2, hds, if_neg (fun hh => hc hh.symm)]
    | doRead b n err =>
      have hmap2 : findClient (mux.doRead s b n err) cid
          = some ⟨cid, false, false, d ++ [⟨b.take n, err⟩]⟩ := by
        rw [show findClient (mux.doRead s b n err) cid
            = (findClient s cid).map (dispatchClient ⟨b.take n, err⟩)
          from findClientL_map s.clients _ cid (dispatchClient_id _), hfind]
        rfl
      obtain ⟨c2, h1, h2⟩ := ih _ (d ++ [⟨b.take n, err⟩]) hmap2
      refine ⟨c2, h1, ?_⟩
      rw [h2]
      have hds : deliveredSpec cid (MuxStep.doRead b n err :: rest)
          = ⟨b.take n, err⟩ :: deliveredSpec cid rest := rfl
      rw [hds]
      simp

/-- C2: for any trace of attach, cancel, and dispatch steps, the
subscriber created by an attach (whose id is the mux's counter at that
moment, equal to the number of earlier attaches) receives over its
delivery channel exactly the payloads of the dispatched reads that occur
after its attach and before its cancellation, in upstream order — so
every dispatched read reaches every subscriber attached before it that
stayed uncancelled through it, and each such subscriber sees the bytes
in exactly upstream order. -/
theorem consrv_c2_mux_fanout_order (t1 t2 : List MuxStep) :
    (runMux mux.new t1).nextId = numAttaches t1
    ∧ (findClient (runMux mux.new (t1 ++ MuxStep.attach :: t2)) (numAttaches t1)).map
        MuxClient.delivered = some (deliveredSpec (numAttaches t1) t2) := by
  have hn : (runMux mux.new t1).nextId = numAttaches t1 := by
    rw [nextId_run]
    exact Nat.zero_add _
  refine ⟨hn, ?_⟩
  have hsplit : runMux mux.new (t1 ++ MuxStep.attach :: t2)
      = runMux (muxStepFn (runMux mux.new t1) MuxStep.attach) t2 := by
    unfold runMux
    rw [List.foldl_append, List.foldl_cons]
  rw [hsplit]
  have hwf : muxWF (runMux mux.new t1) :=
    muxWF_run _ _ (fun c hc => absurd hc (List.not_mem_nil c))
  have hnone : findClientL (runMux mux.new t1).clients (numAttaches t1) = none := by
    apply findClientL_none_of_ne
    intro c hc
    have hlt := hwf c hc
    rw [hn] at hlt
    omega
  have hfind : findClient (muxStepFn (runMux mux.new t1) MuxStep.attach) (numAttaches t1)
      = some ⟨numAttaches t1, false, false, []⟩ := by
    show findClientL ((runMux mux.new t1).clients
      ++ [⟨(runMux mux.new t1).nextId, false, false, []⟩]) (numAttaches t1) = _
    rw [findClientL_append_none _ _ _ hnone, hn]
    simp [findClientL]
  obtain ⟨c2, h1, h2⟩ := runMux_live t2 _ (numAttaches t1) [] hfind
  rw [h1]
  simp [h2]

/-! ## C4: reader loop terminal behavior -/

theorem muxLoop_pre (s : MuxState) (pre rest : List UpstreamRead)
    (hpre : ∀ x ∈ pre, x.err = none) :
    muxLoop s (pre ++ rest) = muxLoop (dispatchAll s pre) rest := by
  induction pre generalizing s with
  | nil => rfl
  | cons r rs ih =>
    have hr : r.err = none := hpre r (List.mem_cons_self r rs)
    have hda : dispatchAll s (r :: rs) = dispatchAll (mux.doRead s r.b r.n none) rs := by
      simp only [dispatchAll, List.foldl_cons, hr]
    rw [hda]
    have hstep : muxLoop s ((r :: rs) ++ rest) = muxLoop (mux.doRead s r.b r.n none) (rs ++ rest) := by
      simp only [List.cons_append, muxLoop, hr]
      rw [if_neg (by simp)]
      rfl
    rw [hstep]
    exact ih _ (fun x hx => hpre x (List.mem_cons_of_mem r hx))

/-- C4: with any sequence of error-free reads already dispatched, a read
returning end-of-stream or closed-pipe terminates the loop cleanly
without a further dispatch and `Close` returns success; a read returning
any other error is dispatched — every still-attached, uncancelled
subscriber receives it as the error field of its final read event, after
its previously delivered events — the loop then terminates, and `Close`
returns that same error. -/
theorem consrv_c4_loop_terminal (s : MuxState) (pre : List UpstreamRead) (r : UpstreamRead)
    (rs : List UpstreamRead) (hpre : ∀ x ∈ pre, x.err = none) :
    ((r.err = some GErr.eof ∨ r.err = some GErr.closedPipe) →
      muxLoop s (pre ++ r :: rs) = (dispatchAll s pre, some none)
      ∧ mux.Close s (pre ++ r :: rs) = some none)
    ∧ (∀ code, r.err = some (GErr.other code) →
      muxLoop s (pre ++ r :: rs)
        = (mux.doRead (dispatchAll s pre) r.b r.n (some (GErr.other code)),
           some (some (GErr.other code)))
      ∧ mux.Close s (pre ++ r :: rs) = some (some (GErr.other code))
      ∧ (∀ c ∈ (dispatchAll s pre).clients, c.cancelled = false → c.removed = false →
          ∃ c2 ∈ (muxLoop s (pre ++ r :: rs)).1.clients, c2.id = c.id
            ∧ c2.delivered = c.delivered ++ [⟨r.b.take r.n, some (GErr.other code)⟩])) := by
  have hkey : muxLoop s (pre ++ r :: rs) = muxLoop (dispatchAll s pre) (r :: rs) :=
    muxLoop_pre s pre (r :: rs) hpre
  constructor
  · intro h
    have hred : muxLoop s (pre ++ r :: rs) = (dispatchAll s pre, some none) := by
      rw [hkey]
      show (if r.err = some GErr.eof ∨ r.err = some GErr.closedPipe then _ else _) = _
      rw [if_pos h]
    refine ⟨hred, ?_⟩
    show (muxLoop s (pre ++ r :: rs)).2 = some none
    rw [hred]
  · intro code hcode
    have hred : muxLoop s (pre ++ r :: rs)
        = (mux.doRead (dispatchAll s pre) r.b r.n (some (GErr.other code)),
           some (some (GErr.other code))) := by
      rw [hkey]
      show (if r.err = some GErr.eof ∨ r.err = some GErr.closedPipe then _ else _) = _
      rw [if_neg (by rw [hcode]; simp), hcode]
    refine ⟨hred, ?_, ?_⟩
    · show (muxLoop s (pre ++ r :: rs)).2 = _
      rw [hred]
    · intro c hc hcan hrem
      rw [hred]
      refine ⟨dispatchClient ⟨r.b.take r.n, some (GErr.other code)⟩ c,
        List.mem_map_of_mem _ hc, dispatchClient_id _ c, ?_⟩
      unfold dispatchClient
      rw [if_neg (by rw [hrem]; exact Bool.false_ne_true), if_neg (by rw [hcan]; exact Bool.false_ne_true)]

/-- C4 witness: starting from a mux with one live subscriber, the script
reading two bytes and then failing with a non-EOF error dispatches the
final error event and `Close` returns that error; the script reading two
bytes and then hitting end-of-stream terminates cleanly. -/
theorem consrv_c4_witness :
    muxLoop ⟨1, [⟨0, false, false, []⟩]⟩ [⟨[1, 2], 2, none⟩, ⟨[9], 1, some (GErr.other 5)⟩]
      = (⟨1, [⟨0, false, false, [⟨[1, 2], none⟩, ⟨[9], some (GErr.other 5)⟩]⟩]⟩,
         some (some (GErr.other 5)))
    ∧ mux.Close ⟨1, [⟨0, false, false, []⟩]⟩ [⟨[1, 2], 2, none⟩, ⟨[], 0, some GErr.eof⟩]
      = some none := by
  constructor
  · have h := (consrv_c4_loop_terminal ⟨1, [⟨0, false, false, []⟩]⟩ [⟨[1, 2], 2, none⟩]
      ⟨[9], 1, some (GErr.other 5)⟩ [] (by intro x hx; simp at hx; rw [hx])).2 5 rfl
    exact h.1.trans (by decide)
  · exact ((consrv_c4_loop_terminal ⟨1, [⟨0, false, false, []⟩]⟩ [⟨[1, 2], 2, none⟩]
      ⟨[], 0, some GErr.eof⟩ [] (by intro x hx; simp at hx; rw [hx])).1 (Or.inl rfl)).2

/-! ## C7: configuration parsing and validation -/

theorem processIdentity_shape (parseKey : String → Option PubKey)
    (acc : List String × List identity) (id : rawIdentity)
    (mid : List String × List identity) (h : processIdentity parseKey acc id = some mid) :
    mid.1 = acc.1 ++ [id.Name] := by
  unfold processIdentity at h
  by_cases hname : id.Name = ""
  · rw [if_pos hname] at h
    exact Option.noConfusion h
  · rw [if_neg hname] at h
    cases hkey : parseKey id.PublicKey with
    | none =>
      rw [hkey] at h
      exact Option.noConfusion h
    | some key =>
      rw [hkey] at h
      injection h with h
      subst h
      rfl

theorem processIdentity_fold_none (parseKey : String → Option PubKey) (l : List rawIdentity)
    (acc : List String × List identity) :
    (l.foldlM (processIdentity parseKey) acc = none)
      ↔ ∃ id ∈ l, id.Name = "" ∨ parseKey id.PublicKey = none := by
  induction l generalizing acc with
  | nil => simp
  | cons id rest ih =>
    rw [List.foldlM_cons]
    by_cases hname : id.Name = ""
    · have hstep : processIdentity parseKey acc id = none := by
        unfold processIdentity
        rw [if_pos hname]
      rw [hstep]
      constructor
      · intro _
        exact ⟨id, List.mem_cons_self id rest, Or.inl hname⟩
      · intro _
        rfl
    · cases hkey : parseKey id.PublicKey with
      | none =>
        have hstep : processIdentity parseKey acc id = none := by
          unfold processIdentity
          rw [if_neg hname, hkey]
        rw [hstep]
        constructor
        · intro _
          exact ⟨id, List.mem_cons_self id rest, Or.inr hkey⟩
        · intro _
          rfl
      | some key =>
        have hstep : processIdentity parseKey acc id
            = some (acc.1 ++ [id.Name], acc.2 ++ [⟨id.Name, key⟩]) := by
          unfold processIdentity
          rw [if_neg hname, hkey]
        have hbind : (processIdentity parseKey acc id >>= fun b => rest.foldlM (processIdentity parseKey) b)
            = rest.foldlM (processIdentity parseKey) (acc.1 ++ [id.Name], acc.2 ++ [⟨id.Name, key⟩]) := by
          rw [hstep]
          rfl
        rw [hbind, ih]
        constructor
        · rintro ⟨id', hm, hp⟩
          exact ⟨id', List.mem_cons_of_mem id hm, hp⟩
        · rintro ⟨id', hm, hp⟩
          rcases List.mem_cons.mp hm with hm | hm
          · subst hm
            rcases hp with hp | hp
            · exact absurd hp hname
            · rw [hkey] at hp
              exact Option.noConfusion hp
          · exact ⟨id', hm, hp⟩

theorem processIdentity_fold_names (parseKey : String → Option PubKey) (l : List rawIdentity)
    (acc out : List String × List identity)
    (h : l.foldlM (processIdentity parseKey) acc = some out) :
    out.1 = acc.1 ++ l.map rawIdentity.Name := by
  induction l generalizing acc with
  | nil =>
    injection h with h
    subst h
    simp
  | cons id rest ih =>
    rw [List.foldlM_cons] at h
    cases hstep : processIdentity parseKey acc id with
    | none =>
      rw [hstep] at h
      simp at h
    | some mid =>
      rw [hstep] at h
      have h' : rest.foldlM (processIdentity parseKey) mid = some out := h
      rw [ih mid h', processIdentity_shape parseKey acc id mid hstep]
      simp

theorem checkDevice_true_iff (v : List String) (d : rawDevice) :
    (checkDevice v d = true)
      ↔ ¬(d.Name = "") ∧ ¬(d.Baud = 0) ∧ ¬(d.Device = "" ∧ d.Serial = "")
        ∧ ∀ n ∈ d.Identities, v.contains n = true := by
  unfold checkDevice
  by_cases h1 : d.Name = ""
  · simp [h1]
  · rw [if_neg h1]
    by_cases h2 : d.Baud = 0
    · simp [h1, h2]
    · rw [if_neg h2]
      by_cases h3 : d.Device = "" ∧ d.Serial = ""
      · rw [if_pos (by simp [h3.1, h3.2])]
        simp [h1, h2, h3]
      · rw [if_neg (by
          intro hb
          simp only [Bool.and_eq_true, decide_eq_true_eq] at hb
          exact h3 hb)]
        simp [h1, h2, h3, List.all_eq_true]

theorem all_false_exists {α : Type} (l : List α) (p : α → Bool) (h : l.all p = false) :
    ∃ x ∈ l, p x = false := by
  induction l with
  | nil => simp [List.all_nil] at h
  | cons x rest ih =>
    rw [List.all_cons] at h
    cases hx : p x with
    | false => exact ⟨x, List.mem_cons_self x rest, hx⟩
    | true =>
      rw [hx, Bool.true_and] at h
      obtain ⟨y, hy, hpy⟩ := ih h
      exact ⟨y, List.mem_cons_of_mem x hy, hpy⟩

theorem checkDevice_false_cases (v : List String) (d : rawDevice) (h : checkDevice v d = false) :
    d.Name = "" ∨ d.Baud = 0 ∨ (d.Device = "" ∧ d.Serial = "")
      ∨ ∃ n ∈ d.Identities, v.contains n = false := by
  unfold checkDevice at h
  by_cases h1 : d.Name = ""
  · exact Or.inl h1
  · rw [if_neg h1] at h
    by_cases h2 : d.Baud = 0
    · exact Or.inr (Or.inl h2)
    · rw [if_neg h2] at h
      by_cases h3 : d.Device = "" ∧ d.Serial = ""
      · exact Or.inr (Or.inr (Or.inl h3))
      · rw [if_neg (by simp only [Bool.and_eq_true, decide_eq_true_eq]; exact h3)] at h
        exact Or.inr (Or.inr (Or.inr (all_false_exists _ _ h)))

/-- C7: `parseConfig` returns an error (no configuration) exactly when
the TOML fails to decode, there are unrecognized keys, zero devices or
zero identities, an unparseable server address, an identity without a
name or with an unparseable public key, a device without a name, without
a nonzero baud rate, or without either a device path or a serial, a
device referencing an identity name matching no configured identity, or
an unparseable debug address; on success an absent server address
defaults to `":2222"`. -/
theorem consrv_c7_parseConfig (parseKey : String → Option PubKey) (resolveTCP : String → Bool)
    (f : file) (u : List String) :
    parseConfig parseKey resolveTCP .err = none
    ∧ ((parseConfig parseKey resolveTCP (.ok f u) = none) ↔
        (u ≠ [] ∨ f.Devices = [] ∨ f.Identities = []
         ∨ (f.Server.Address ≠ "" ∧ resolveTCP f.Server.Address = false)
         ∨ (∃ id ∈ f.Identities, id.Name = "")
         ∨ (∃ id ∈ f.Identities, parseKey id.PublicKey = none)
         ∨ (∃ d ∈ f.Devices, d.Name = "")
         ∨ (∃ d ∈ f.Devices, d.Baud = 0)
         ∨ (∃ d ∈ f.Devices, d.Device = "" ∧ d.Serial = "")
         ∨ (∃ d ∈ f.Devices, ∃ n ∈ d.Identities, ∀ id ∈ f.Identities, id.Name ≠ n)
         ∨ (f.Debug.Address ≠ "" ∧ resolveTCP f.Debug.Address = false)))
    ∧ (∀ cfg, parseConfig parseKey resolveTCP (.ok f u) = some cfg →
        f.Server.Address = "" → cfg.Server.Address = ":2222") := by
  have hbody : parseConfig parseKey resolveTCP (.ok f u) =
      (if ¬u.isEmpty then none
       else if f.Devices.isEmpty then none
       else if f.Identities.isEmpty then none
       else
         match (if f.Server.Address ≠ "" then
                 if resolveTCP f.Server.Address then some f.Server.Address else none
               else some defaultSSH) with
         | none => none
         | some addr =>
           match f.Identities.foldlM (processIdentity parseKey) ([], []) with
           | none => none
           | some acc =>
             if ¬(f.Devices.all (checkDevice acc.1)) then none
             else if f.Debug.Address ≠ "" && ¬resolveTCP f.Debug.Address then none
             else some ⟨⟨addr⟩, f.Devices, acc.2, f.Debug⟩) := rfl
  refine ⟨rfl, ?_, ?_⟩
  · rw [hbody]
    split
    · next hu =>
      refine iff_of_true rfl (Or.inl ?_)
      simpa using hu
    · next hu =>
      have hu0 : u = [] := by simpa using not_not.mp hu
      split
      · next hdev =>
        exact iff_of_true rfl (Or.inr (Or.inl (by simpa using hdev)))
      · next hdev =>
        split
        · next hid =>
          exact iff_of_true rfl (Or.inr (Or.inr (Or.inl (by simpa using hid))))
        · next hid =>
          split
          · next heq =>
            refine iff_of_true rfl (Or.inr (Or.inr (Or.inr (Or.inl ?_))))
            by_cases hs : f.Server.Address = ""
            · rw [if_neg (by simp [hs])] at heq
              exact Option.noConfusion heq
            · rw [if_pos hs] at heq
              by_cases hrt : resolveTCP f.Server.Address = true
              · rw [if_pos hrt] at heq
                exact Option.noConfusion heq
              · exact ⟨hs, by simpa using hrt⟩
          · next addr heq =>
            split
            · next hfold =>
              obtain ⟨id, hm, hp⟩ :=
                (processIdentity_fold_none parseKey f.Identities ([], [])).mp hfold
              rcases hp with hp | hp
              · exact iff_of_true rfl
                  (Or.inr (Or.inr (Or.inr (Or.inr (Or.inl ⟨id, hm, hp⟩)))))
              · exact iff_of_true rfl
                  (Or.inr (Or.inr (Or.inr (Or.inr (Or.inr (Or.inl ⟨id, hm, hp⟩))))))
            · next acc hfold =>
              have hnames : acc.1 = f.Identities.map rawIdentity.Name := by
                have hn := processIdentity_fold_names parseKey f.Identities ([], []) acc hfold
                simpa using hn
              split
              · next hall =>
                have hallf : f.Devices.all (checkDevice acc.1) = false := by
                  cases hres : f.Devices.all (checkDevice acc.1) with
                  | false => rfl
                  | true => exact absurd hres hall
                obtain ⟨d, hd, hcd⟩ := all_false_exists _ _ hallf
                rcases checkDevice_false_cases acc.1 d hcd with hc | hc | hc | ⟨n, hn, hcon⟩
                · exact iff_of_true rfl
                    (Or.inr (Or.inr (Or.inr (Or.inr (Or.inr (Or.inr (Or.inl ⟨d, hd, hc⟩)))))))
                · exact iff_of_true rfl
                    (Or.inr (Or.inr (Or.inr (Or.inr (Or.inr (Or.inr (Or.inr
                      (Or.inl ⟨d, hd, hc⟩))))))))
                · exact iff_of_true rfl
                    (Or.inr (Or.inr (Or.inr (Or.inr (Or.inr (Or.inr (Or.inr (Or.inr
                      (Or.inl ⟨d, hd, hc⟩)))))))))
                · refine iff_of_true rfl
                    (Or.inr (Or.inr (Or.inr (Or.inr (Or.inr (Or.inr (Or.inr (Or.inr (Or.inr
                      (Or.inl ⟨d, hd, n, hn, ?_⟩))))))))))
                  intro id hmem hname
                  rw [hnames] at hcon
                  have hmemmap : n ∈ f.Identities.map rawIdentity.Name :=
                    List.mem_map.mpr ⟨id, hmem, hname⟩
                  have hcont : (f.Identities.map rawIdentity.Name).contains n = true := by
                    simp [hmemmap]
                  rw [hcont] at hcon
                  exact Bool.noConfusion hcon
              · next hall =>
                have halltrue : f.Devices.all (checkDevice acc.1) = true := not_not.mp hall
                split
                · next hdbg =>
                  refine iff_of_true rfl
                    (Or.inr (Or.inr (Or.inr (Or.inr (Or.inr (Or.inr (Or.inr (Or.inr (Or.inr
                      (Or.inr ?_))))))))))
                  simp only [Bool.and_eq_true, decide_eq_true_eq] at hdbg
                  exact ⟨hdbg.1, by simpa using hdbg.2⟩
                · next hdbg =>
                  refine iff_of_false (by simp) ?_
                  rintro (hE | hE | hE | ⟨hsne, hsrt⟩ | ⟨id, hm, hp⟩ | ⟨id, hm, hp⟩
                    | ⟨d, hd, hp⟩ | ⟨d, hd, hp⟩ | ⟨d, hd, hp⟩ | ⟨d, hd, n, hn, hnall⟩
                    | ⟨hdne, hdrt⟩)
                  · exact hE hu0
                  · rw [hE] at hdev
                    exact hdev rfl
                  · rw [hE] at hid
                    exact hid rfl
                  · rw [if_pos hsne] at heq
                    rw [if_neg (by simp [hsrt])] at heq
                    exact Option.noConfusion heq
                  · have hnone : List.foldlM (processIdentity parseKey) ([], []) f.Identities = none :=
                      (processIdentity_fold_none parseKey f.Identities ([], [])).mpr
                        ⟨id, hm, Or.inl hp⟩
                    rw [hnone] at hfold
                    exact Option.noConfusion hfold
                  · have hnone : List.foldlM (processIdentity parseKey) ([], []) f.Identities = none :=
                      (processIdentity_fold_none parseKey f.Identities ([], [])).mpr
                        ⟨id, hm, Or.inr hp⟩
                    rw [hnone] at hfold
                    exact Option.noConfusion hfold
                  · have hcd := List.all_eq_true.mp halltrue d hd
                    exact ((checkDevice_true_iff acc.1 d).mp hcd).1 hp
                  · have hcd := List.all_eq_true.mp halltrue d hd
                    exact ((checkDevice_true_iff acc.1 d).mp hcd).2.1 hp
                  · have hcd := List.all_eq_true.mp halltrue d hd
                    exact ((checkDevice_true_iff acc.1 d).mp hcd).2.2.1 hp
                  · have hcd := List.all_eq_true.mp halltrue d hd
                    have hcont := ((checkDevice_true_iff acc.1 d).mp hcd).2.2.2 n hn
                    rw [hnames] at hcont
                    have hmemmap : n ∈ f.Identities.map rawIdentity.Name := by
                      simpa using hcont
                    obtain ⟨id, hmem, hname⟩ := List.mem_map.mp hmemmap
                    exact hnall id hmem hname
                  · exact hdbg (by simp [hdne, hdrt])
  · intro cfg hcfg hs
    rw [hbody] at hcfg
    split at hcfg
    · exact Option.noConfusion hcfg
    · split at hcfg
      · exact Option.noConfusion hcfg
      · split at hcfg
        · exact Option.noConfusion hcfg
        · split at hcfg
          · exact Option.noConfusion hcfg
          · next addr heq =>
            split at hcfg
            · exact Option.noConfusion hcfg
            · next acc hfold =>
              split at hcfg
              · exact Option.noConfusion hcfg
              · split at hcfg
                · exact Option.noConfusion hcfg
                · rw [if_neg (by simp [hs])] at heq
                  injection heq with heq
                  injection hcfg with hcfg
                  rw [← hcfg, ← heq]
                  rfl

/-- Key parser for the C7 witness: rejects the literal `bad`. -/
def pkW : String → Option PubKey := fun s => if s = "bad" then none else some s

/-- Address resolver for the C7 witness: accepts every address. -/
def rtW : String → Bool := fun _ => true

/-- A valid decoded configuration file with no server address set. -/
def fW : file :=
  { Server := ⟨""⟩
    Devices := [⟨"dev0", "/dev/ttyUSB0", "", 115200, ["ops"]⟩]
    Identities := [⟨"ops", "ssh-ed25519 AAAA"⟩]
    Debug := ⟨"", false, false⟩ }

/-- C7 witness: the valid file parses, its absent server address
defaults to `":2222"`, and removing all devices makes parsing fail. -/
theorem consrv_c7_witness :
    parseConfig pkW rtW (.ok fW [])
      = some ⟨⟨":2222"⟩, fW.Devices, [⟨"ops", "ssh-ed25519 AAAA"⟩], fW.Debug⟩
    ∧ (∃ cfg, parseConfig pkW rtW (.ok fW []) = some cfg ∧ cfg.Server.Address = ":2222")
    ∧ parseConfig pkW rtW (.ok { fW with Devices := [] } []) = none := by
  have hp : parseConfig pkW rtW (.ok fW [])
      = some ⟨⟨":2222"⟩, fW.Devices, [⟨"ops", "ssh-ed25519 AAAA"⟩], fW.Debug⟩ := by decide
  refine ⟨hp, ⟨_, hp, (consrv_c7_parseConfig pkW rtW fW []).2.2 _ hp rfl⟩, ?_⟩
  exact (consrv_c7_parseConfig pkW rtW { fW with Devices := [] } []).2.1.mpr
    (Or.inr (Or.inl rfl))
